import Mathlib

/-!
Verification development for the news-generator pipeline: a shallow
embedding of the feed parsing, candidate selection, translation fallback,
article structuring and slug derivation code, together with theorems about
the behaviour of those functions.

Strings from the source are modelled as Lean `String`/`List Char`; the
JavaScript regular expressions are modelled by dedicated scanning functions
with leftmost-match semantics.  JavaScript `slice`/`length` count UTF-16
units; all characters appearing in this development are in the BMP, where
the two measures agree with `List Char` positions.
-/

/-- Numeric code of the ASCII apostrophe character. -/
def apoChar : Char := Char.ofNat 39

/-- Model of the JavaScript whitespace class for the inputs in scope:
space, tab, newline, carriage return, vertical tab and form feed. -/
def isWsChar (c : Char) : Bool :=
  decide (c.toNat = 32) || decide (c.toNat = 9) || decide (c.toNat = 10) ||
  decide (c.toNat = 13) || decide (c.toNat = 11) || decide (c.toNat = 12)

/-- Lowercase ASCII letter. -/
def isLowerAZ (c : Char) : Bool := decide (97 ≤ c.toNat) && decide (c.toNat ≤ 122)

/-- Uppercase ASCII letter. -/
def isUpperAZ (c : Char) : Bool := decide (65 ≤ c.toNat) && decide (c.toNat ≤ 90)

/-- ASCII digit. -/
def isDigitC (c : Char) : Bool := decide (48 ≤ c.toNat) && decide (c.toNat ≤ 57)

/-- The regex word class: ASCII letters, digits and underscore. -/
def isWordChar (c : Char) : Bool :=
  isLowerAZ c || isUpperAZ c || isDigitC c || decide (c.toNat = 95)

/-- Characters of the Thai Unicode block, as in the class U+0E00-U+0E7F. -/
def isThaiChar (c : Char) : Bool :=
  decide (0xE00 ≤ c.toNat) && decide (c.toNat ≤ 0xE7F)

/-- ASCII lowercasing, the effect of toLowerCase on the characters that
survive the slug character filter (non-ASCII letters are left unchanged;
they are removed by the later filter in all uses below). -/
def lowerChar (c : Char) : Char :=
  if isUpperAZ c then Char.ofNat (c.toNat + 32) else c

/-- Quote characters removed by the first slugify replacement. -/
def isSlugQuote (c : Char) : Bool := decide (c.toNat = 39) || decide (c.toNat = 34)

/-- Characters kept by the slugify class: word characters, Thai characters,
whitespace and hyphen. -/
def slugKeep (c : Char) : Bool :=
  isWordChar c || isThaiChar c || isWsChar c || decide (c.toNat = 45)

/-- Whitespace or underscore, the class replaced by hyphens in slugify. -/
def isSpaceUnd (c : Char) : Bool := isWsChar c || decide (c.toNat = 95)

/-- Replace every maximal run of characters satisfying p by the single
character r.  The flag records whether the previous character was in a run.
Models a global regex replacement of a one-or-more class by one character. -/
def squashRunsAux (p : Char → Bool) (r : Char) : Bool → List Char → List Char
  | _, [] => []
  | inRun, c :: rest =>
    if p c then
      if inRun then squashRunsAux p r true rest
      else r :: squashRunsAux p r true rest
    else c :: squashRunsAux p r false rest

/-- Run squashing starting outside a run. -/
def squashRuns (p : Char → Bool) (r : Char) (l : List Char) : List Char :=
  squashRunsAux p r false l

/-- Remove the maximal trailing run of characters satisfying p.  Models the
regex anchor form that deletes a trailing class run. -/
def dropTrailing (p : Char → Bool) : List Char → List Char
  | [] => []
  | c :: rest =>
    match dropTrailing p rest with
    | [] => if p c then [] else [c]
    | r => c :: r

/-- Model of the JavaScript String.prototype.trim. -/
def trimChars (l : List Char) : List Char :=
  dropTrailing isWsChar (l.dropWhile isWsChar)

/-- String-level trim. -/
def jsTrim (s : String) : String := String.mk (trimChars s.data)

/-- Remove one leading and one trailing run of hyphens, the effect of the
edge-hyphen replacement in slugify. -/
def stripEdgeHyphens (l : List Char) : List Char :=
  dropTrailing (fun c => decide (c.toNat = 45)) (l.dropWhile (fun c => decide (c.toNat = 45)))

/-- Model of slugify on character lists, mirroring the source step by step:
lowercase, trim, remove quotes, keep word and Thai characters plus
whitespace and hyphens, replace whitespace and underscore runs by hyphens,
collapse hyphen runs, strip edge hyphens, and cut to 96 characters. -/
def slugifyChars (l : List Char) : List Char :=
  let s1 := l.map lowerChar
  let s2 := trimChars s1
  let s3 := s2.filter (fun c => !isSlugQuote c)
  let s4 := s3.filter slugKeep
  let s5 := squashRuns isSpaceUnd (Char.ofNat 45) s4
  let s6 := squashRuns (fun c => decide (c.toNat = 45)) (Char.ofNat 45) s5
  let s7 := stripEdgeHyphens s6
  s7.take 96

/-- Model of the slugify function from the slug library module. -/
def slugify (s : String) : String := String.mk (slugifyChars s.data)

/-- Remove a trailing run of hyphens from a string. -/
def dropTrailingHyphens (s : String) : String :=
  String.mk (dropTrailing (fun c => decide (c.toNat = 45)) s.data)

/-- JavaScript truthiness fallback on strings: a || b. -/
def orStr (a b : String) : String := if a = ("") then b else a

/-- Model of slice(0, n) on strings. -/
def jsSlice0 (s : String) (n : Nat) : String := String.mk (s.data.take n)

/-- Exact prefix test on character lists. -/
def startsWithList : List Char → List Char → Bool
  | [], _ => true
  | _ :: _, [] => false
  | p :: ps, c :: cs => decide (p = c) && startsWithList ps cs

/-- Case-insensitive prefix test; the pattern is given in lowercase. -/
def startsWithCI : List Char → List Char → Bool
  | [], _ => true
  | _ :: _, [] => false
  | p :: ps, c :: cs => decide (p = lowerChar c) && startsWithCI ps cs

/-- Exact substring test, the model of String.prototype.includes. -/
def containsList (pat : List Char) : List Char → Bool
  | [] => startsWithList pat []
  | l@(_ :: rest) => startsWithList pat l || containsList pat rest

/-- Case-insensitive substring test, the model of a case-insensitive
regex literal test; the pattern is given in lowercase. -/
def containsCI (pat : List Char) : List Char → Bool
  | [] => startsWithCI pat []
  | l@(_ :: rest) => startsWithCI pat l || containsCI pat rest

/-- Fuel-driven global replacement of a fixed nonempty pattern, the model
of a global literal regex replacement.  The fuel is initialised with the
length of the list, which bounds the number of steps. -/
def replaceAllAux (pat repl : List Char) : Nat → List Char → List Char
  | _, [] => []
  | 0, l => l
  | Nat.succ f, l@(c :: rest) =>
    if startsWithList pat l then repl ++ replaceAllAux pat repl f (l.drop pat.length)
    else c :: replaceAllAux pat repl f rest

/-- Global replacement of a literal pattern. -/
def replaceAll (pat repl l : List Char) : List Char :=
  replaceAllAux pat repl l.length l

/-- Normalisation of line endings: CRLF or lone CR becomes LF, the model
of the global replacement of carriage-return forms by newline. -/
def normalizeCRLF : List Char → List Char
  | [] => []
  | [c] => if c.toNat = 13 then [Char.ofNat 10] else [c]
  | c :: d :: rest =>
    if c.toNat = 13 then
      if d.toNat = 10 then Char.ofNat 10 :: normalizeCRLF rest
      else Char.ofNat 10 :: normalizeCRLF (d :: rest)
    else c :: normalizeCRLF (d :: rest)

/-- Collapse every whitespace run to a single space, the model of the
global replacement of whitespace runs by one space. -/
def collapseWs (l : List Char) : List Char := squashRuns isWsChar (Char.ofNat 32) l

/-- Sentence-ending characters of the splitting class: period, exclamation
mark, question mark, U+0E2F and U+0E46. -/
def isSenEnder (c : Char) : Bool :=
  decide (c.toNat = 46) || decide (c.toNat = 33) || decide (c.toNat = 63) ||
  decide (c.toNat = 0xE2F) || decide (c.toNat = 0xE46)

/-- Sentence-ender test on the head of a reversed accumulator. -/
def headEnder : List Char → Bool
  | p :: _ => isSenEnder p
  | [] => false

/-- Split an already whitespace-normalised character list at each space
that follows a sentence ender.  The accumulator holds the current piece in
reverse.  On normalised input (single spaces, no newlines) this is the
lookbehind split of the source. -/
def splitSentAux : List Char → List Char → List (List Char)
  | [], cur => [cur.reverse]
  | c :: rest, cur =>
    if decide (c.toNat = 32) && headEnder cur then cur.reverse :: splitSentAux rest []
    else splitSentAux rest (c :: cur)

/-- Model of splitSentences: normalise line endings, collapse whitespace,
trim, split at sentence boundaries, trim the pieces and drop empties. -/
def splitSentences (text : String) : List String :=
  let norm := trimChars (collapseWs (normalizeCRLF text.data))
  (((splitSentAux norm []).map trimChars).filter (fun l => !l.isEmpty)).map String.mk

/-- Join with single spaces, the model of Array.prototype.join with a
space separator. -/
def joinSp (l : List String) : String := String.intercalate (" ") l

/-- Model of chunkSentences with the fixed chunk size two used by the
source: join consecutive pairs of sentences with a space. -/
def chunkSentences : List String → List String
  | [] => []
  | [a] => [a]
  | a :: b :: rest => (a ++ (" ") ++ b) :: chunkSentences rest

/-- The sentence list of a body text inside buildStructuredArticle. -/
def sentencesOf (body : String) : List String := splitSentences body

/-- The introduction sentences: the first three sentences. -/
def introSents (body : String) : List String := (sentencesOf body).take 3

/-- The key-point sentences: the six sentences after the introduction. -/
def keyPointSents (body : String) : List String :=
  ((sentencesOf body).drop 3).take 6

/-- The detail sentences: everything after introduction and key points. -/
def detailSents (body : String) : List String :=
  ((sentencesOf body).drop 3).drop 6

/-- The conclusion sentences: the last two sentences (all of them when
fewer than two exist). -/
def conclSents (body : String) : List String :=
  (sentencesOf body).drop ((sentencesOf body).length - 2)

/-- The joined introduction string. -/
def introStr (body : String) : String := joinSp (introSents body)

/-- The joined first-thirteen-sentences string used for the excerpt
section. -/
def summary13 (body : String) : String := joinSp ((sentencesOf body).take 13)

/-- The conclusion string: the joined last two sentences, falling back to
the introduction when that join is empty, then trimmed. -/
def conclusionStr (body : String) : String :=
  jsTrim (orStr (joinSp (conclSents body)) (introStr body))

/-- The line list of the structured article document, in source order. -/
def buildStructuredLines (title excerpt body : String) (sources : List String) : List String :=
  let keyPoints := keyPointSents body
  let detailParas := chunkSentences (detailSents body)
  [("Title"), "", jsTrim (orStr title ("")), ""]
  ++ [("Excerpt"), "", jsTrim (orStr (orStr (summary13 body) excerpt) ("")), ""]
  ++ [("Introduction"), "", jsTrim (introStr body), ""]
  ++ [("Main Sections"), ""]
  ++ (if keyPoints.length ≠ 0 then
        [("Key Points"), ""] ++ keyPoints.map (fun k => ("- ") ++ k) ++ [""]
      else [])
  ++ (if detailParas.length ≠ 0 then
        [("Details"), ""] ++ detailParas.flatMap (fun p => [p, ""])
      else [])
  ++ [("Conclusion"), "", conclusionStr body, ""]
  ++ [("Sources"), ""]
  ++ (if sources.length ≠ 0 then sources.map (fun s => ("- ") ++ s)
      else [("No external sources provided.")])

/-- Model of buildStructuredArticle: the line list joined by newlines. -/
def buildStructuredArticle (title excerpt body : String) (sources : List String) : String :=
  String.intercalate ("\n") (buildStructuredLines title excerpt body sources)

/-- Sentence split used by toParagraphs: same normalisation and boundary
split, dropping empty pieces (this split has no per-piece trim in the
source; on normalised input the pieces carry no edge spaces). -/
def toParagraphsSents (text : String) : List String :=
  let norm := trimChars (collapseWs text.data)
  ((splitSentAux norm []).filter (fun l => !l.isEmpty)).map String.mk

/-- Cut a character list into consecutive chunks of 140 characters,
written with a structural budget counter.  Models the slicing loop of
toParagraphs. -/
def chunk140Aux : List Char → Nat → List Char → List String
  | [], _, cur => if cur.isEmpty then [] else [String.mk cur.reverse]
  | c :: rest, Nat.succ b, cur => chunk140Aux rest b (c :: cur)
  | c :: rest, 0, cur => String.mk cur.reverse :: chunk140Aux rest 139 [c]

/-- 140-character chunking of a character list. -/
def chunk140 (l : List Char) : List String := chunk140Aux l 140 []

/-- Model of toParagraphs: sentence split, 140-character chunking when
fewer than three sentences, then two-sentence paragraphs joined by blank
lines. -/
def toParagraphs (text : String) : String :=
  let normalized := trimChars (collapseWs text.data)
  let sentences := toParagraphsSents text
  let sentences := if sentences.length < 3 then chunk140 normalized else sentences
  String.intercalate ("\n\n") (chunkSentences sentences)

/-- Whether a whitespace run starting here reaches another newline:
the tail test of the blank-line regex after its first newline. -/
def blankTail : List Char → Bool
  | [] => false
  | c :: rest =>
    if c.toNat = 10 then true
    else if isWsChar c then blankTail rest
    else false

/-- Whether the text contains a newline, whitespace, newline sequence,
the model of the blank-line test. -/
def hasBlankLine : List Char → Bool
  | [] => false
  | c :: rest => (decide (c.toNat = 10) && blankTail rest) || hasBlankLine rest

/-- Split at blank-line separators.  A separator is a newline whose
following whitespace run contains another newline; the split consumes the
whole whitespace run (the source regex leaves trailing spaces of the run
to the next piece, which the subsequent per-piece trim removes, so the
trimmed pieces agree).  The flag marks separator-skipping mode. -/
def splitBlankAux : List Char → Bool → List Char → List (List Char)
  | [], _, cur => [cur.reverse]
  | c :: rest, true, cur =>
    if isWsChar c then splitBlankAux rest true cur
    else splitBlankAux rest false (c :: cur)
  | c :: rest, false, cur =>
    if decide (c.toNat = 10) && blankTail rest then cur.reverse :: splitBlankAux rest true []
    else splitBlankAux rest false (c :: cur)

/-- Model of formatContentForReadability: normalise line endings and trim;
empty input yields the empty string; otherwise keep existing paragraph
breaks or synthesise them with toParagraphs, split into paragraphs, join
with two blank lines, and prepend a leading blank line. -/
def formatContentForReadability (text : String) : String :=
  let normalized := trimChars (normalizeCRLF text.data)
  if normalized.isEmpty then ("")
  else
    let base := if hasBlankLine normalized then String.mk normalized
                else toParagraphs (String.mk normalized)
    let parts := ((splitBlankAux base.data false []).map trimChars).filter (fun l => !l.isEmpty)
    (("\n\n") ++ String.intercalate ("\n\n\n") (parts.map String.mk))

/-- The fixed stop-word list of the cover query builder, in source order. -/
def commonWords : List String :=
  [("the"), "a", "an", "and", "or", "but", "in", "on", "at", "to", "for",
   "of", "with", "by", "from", "up", "about", "into", "through", "during",
   "before", "after", "above", "below", "between", "under", "over", "again",
   "further", "then", "once", "here", "there", "when", "where", "why",
   "how", "all", "both", "each", "few", "more", "most", "other", "some",
   "such", "no", "nor", "not", "only", "own", "same", "so", "than", "too",
   "very", "can", "will", "just", "should", "now"]

/-- Split on whitespace runs, the model of String.prototype.split with a
whitespace-run regex: leading or trailing whitespace contributes an empty
piece, exactly as in the source runtime.  The flag marks skipping mode. -/
def splitWsRunsAux : List Char → Bool → List Char → List (List Char)
  | [], _, cur => [cur.reverse]
  | c :: rest, skip, cur =>
    if isWsChar c then
      if skip then splitWsRunsAux rest true cur
      else cur.reverse :: splitWsRunsAux rest true []
    else splitWsRunsAux rest false (c :: cur)

/-- Model of buildUnsplashQuery: lowercase the title, replace every
non-word non-whitespace character by a space, split on whitespace, keep
words longer than three characters that are not stop words, take the first
three, and join them after the category. -/
def buildUnsplashQuery (category title : String) : String :=
  let cleaned := (title.data.map lowerChar).map
    (fun c => if isWordChar c || isWsChar c then c else Char.ofNat 32)
  let words := ((splitWsRunsAux cleaned false []).map String.mk).filter
    (fun w => decide (w.length > 3) && !(commonWords.contains w))
  joinSp (category :: words.take 3)

/-- Characters left unescaped by encodeURIComponent. -/
def uriUnreserved (c : Char) : Bool :=
  isLowerAZ c || isUpperAZ c || isDigitC c ||
  decide (c.toNat = 45) || decide (c.toNat = 95) || decide (c.toNat = 46) ||
  decide (c.toNat = 33) || decide (c.toNat = 126) || decide (c.toNat = 42) ||
  decide (c.toNat = 39) || decide (c.toNat = 40) || decide (c.toNat = 41)

/-- UTF-8 bytes of a code point. -/
def utf8Bytes (n : Nat) : List Nat :=
  if n < 0x80 then [n]
  else if n < 0x800 then [0xC0 + n / 64, 0x80 + n % 64]
  else if n < 0x10000 then [0xE0 + n / 4096, 0x80 + (n / 64) % 64, 0x80 + n % 64]
  else [0xF0 + n / 262144, 0x80 + (n / 4096) % 64, 0x80 + (n / 64) % 64, 0x80 + n % 64]

/-- Uppercase hexadecimal digit character of a value below sixteen. -/
def hexDigitChar (n : Nat) : Char :=
  if n < 10 then Char.ofNat (48 + n) else Char.ofNat (55 + n)

/-- Percent escape of one byte. -/
def percentByte (b : Nat) : List Char :=
  [Char.ofNat 37, hexDigitChar (b / 16), hexDigitChar (b % 16)]

/-- Model of encodeURIComponent. -/
def encodeURIComponentStr (s : String) : String :=
  String.mk (s.data.flatMap
    (fun c => if uriUnreserved c then [c] else (utf8Bytes c.toNat).flatMap percentByte))

/-- Model of buildUnsplashUrl. -/
def buildUnsplashUrl (query : String) : String :=
  ("https://source.unsplash.com/1600x900/?") ++ encodeURIComponentStr query

/-- Model of decodeEntities: the five standard entities plus the numeric
apostrophe form, replaced globally in source order. -/
def decodeEntities (text : String) : String :=
  let a1 := replaceAll (("&lt;").data) (("<").data) text.data
  let a2 := replaceAll (("&gt;").data) ((">").data) a1
  let a3 := replaceAll (("&amp;").data) (("&").data) a2
  let a4 := replaceAll (("&quot;").data) (("\"").data) a3
  let a5 := replaceAll (("&#039;").data) [apoChar] a4
  let a6 := replaceAll (("&apos;").data) [apoChar] a5
  String.mk a6

/-- One step of the tag-removal replacement: at an opening angle bracket,
a nonempty run of characters other than a closing angle bracket followed by
a closing angle bracket is replaced; otherwise the character is kept.  The
fuel is initialised with the list length. -/
def stripTagsAux (repl : List Char) : Nat → List Char → List Char
  | _, [] => []
  | 0, l => l
  | Nat.succ f, c :: rest =>
    if c.toNat = 60 then
      let gap := rest.takeWhile (fun d => !decide (d.toNat = 62))
      let after := rest.drop gap.length
      match after with
      | _ :: after2 =>
        if gap.isEmpty then c :: stripTagsAux repl f rest
        else repl ++ stripTagsAux repl f after2
      | [] => c :: stripTagsAux repl f rest
    else c :: stripTagsAux repl f rest

/-- Global removal of angle-bracket tags, replaced by the given text. -/
def stripTags (repl : List Char) (l : List Char) : List Char :=
  stripTagsAux repl l.length l

/-- Boundary test after a tag-name match: the next character must not be a
word character (end of input also qualifies). -/
def boundaryOkAt : List Char → Bool
  | [] => true
  | c :: _ => !isWordChar c

/-- Skip to the first closing angle bracket and return the remainder, the
effect of a greedy non-closing-bracket run followed by the bracket. -/
def skipToGt : List Char → Option (List Char)
  | [] => none
  | c :: rest => if c.toNat = 62 then some rest else skipToGt rest

/-- Try the alternation of tag names at one position: the position must
hold an opening angle bracket followed by one of the names
(case-insensitively, names given lowercase, tried in order), an optional
boundary requirement, then any characters up to the closing bracket.
Returns the remainder after the closing bracket. -/
def openHere (names : List (List Char)) (bdry : Bool) (l : List Char) : Option (List Char) :=
  match l with
  | c :: rest =>
    if c.toNat = 60 then
      match names.find? (fun n => startsWithCI n rest &&
        (!bdry || boundaryOkAt (rest.drop n.length))) with
      | some n => skipToGt (rest.drop n.length)
      | none => none
    else none
  | [] => none

/-- Leftmost scan for an opening tag of one of the given names. -/
def findOpenScan (names : List (List Char)) (bdry : Bool) : List Char → Option (List Char)
  | [] => none
  | l@(_ :: rest) =>
    match openHere names bdry l with
    | some r => some r
    | none => findOpenScan names bdry rest

/-- Strip one optional leading CDATA opener, case-insensitively. -/
def stripCDATA (l : List Char) : List Char :=
  if startsWithCI (("<![cdata[").data) l then l.drop 9 else l

/-- Lazy capture up to the first closing tag of one of the given names
(full closing forms given lowercase), allowing an optional CDATA closer
immediately before it, which is excluded from the capture. -/
def captureClose (closes : List (List Char)) : List Char → Option (List Char)
  | [] => none
  | l@(c :: rest) =>
    if closes.any (fun cl => startsWithCI ((("]]>").data) ++ cl) l) then some []
    else if closes.any (fun cl => startsWithCI cl l) then some []
    else
      match captureClose closes rest with
      | some b => some (c :: b)
      | none => none

/-- Combined tag-content capture: leftmost opening tag of one of the
names, optional CDATA opener, lazy capture to the first closing tag. -/
def findTagCapture (names closes : List (List Char)) (bdry : Bool) (l : List Char) :
    Option (List Char) :=
  match findOpenScan names bdry l with
  | some r => captureClose closes (stripCDATA r)
  | none => none

/-- Parse a quoted attribute value at this position: a quote character, a
nonempty run of non-quote characters, and a quote character.  Returns the
captured value and the remainder after the closing quote. -/
def parseQuotedVal (l : List Char) : Option (List Char × List Char) :=
  match l with
  | c :: rest =>
    if isSlugQuote c then
      let v := rest.takeWhile (fun d => !isSlugQuote d)
      match rest.drop v.length with
      | d :: r2 => if isSlugQuote d && !v.isEmpty then some (v, r2) else none
      | [] => none
    else none
  | [] => none

/-- Scan inside a link tag for an href attribute: stops at the closing
angle bracket, requires a non-word character before the attribute name,
and requires a closing bracket somewhere after the quoted value.  The
source regex backtracks greedily, which selects the last such attribute in
a tag; the scan takes the first, which agrees whenever a tag carries a
single href attribute. -/
def hrefInTag : Char → List Char → Option (List Char)
  | _, [] => none
  | prev, l@(c :: rest) =>
    if c.toNat = 62 then none
    else if startsWithCI (("href=").data) l && !isWordChar prev then
      match parseQuotedVal (l.drop 5) with
      | some (v, after) => if after.contains (Char.ofNat 62) then some v else hrefInTag c rest
      | none => hrefInTag c rest
    else hrefInTag c rest

/-- Leftmost scan for a link tag carrying an href attribute, the model of
the attribute-style link pattern. -/
def findLinkHref : List Char → Option (List Char)
  | [] => none
  | l@(_ :: rest) =>
    if startsWithCI (("<link").data) l && boundaryOkAt (l.drop 5) then
      match hrefInTag (Char.ofNat 107) (l.drop 5) with
      | some v => some v
      | none => findLinkHref rest
    else findLinkHref rest

/-- Model of the tag-content link pattern: a link opening tag with word
boundary, optional CDATA, lazy capture to the closing link tag. -/
def findLinkText (block : List Char) : Option (List Char) :=
  match findOpenScan [(("link").data)] true block with
  | some r => captureClose [(("</link>").data)] (stripCDATA r)
  | none => none

/-- Scan of a tag-attribute region for a permalink marker: the attribute
name, a quote, the word true, and a quote, case-insensitively. -/
def permaScan : List Char → Bool
  | [] => false
  | l@(_ :: rest) =>
    (startsWithCI (("ispermalink=").data) l &&
      (match l.drop 12 with
       | q1 :: r1 =>
         isSlugQuote q1 && startsWithCI (("true").data) r1 &&
         (match r1.drop 4 with
          | q2 :: _ => isSlugQuote q2
          | [] => false)
       | [] => false))
    || permaScan rest

/-- Attempt of the permalink-guid pattern after a guid opening: the
attribute region up to the closing bracket must contain the permalink
marker, then a nonempty run of non-opening-bracket characters is captured
before a closing guid tag. -/
def guidHere (l : List Char) : Option (List Char) :=
  let attrs := l.takeWhile (fun c => !decide (c.toNat = 62))
  match l.drop attrs.length with
  | _ :: r2 =>
    if permaScan attrs then
      let v := r2.takeWhile (fun c => !decide (c.toNat = 60))
      if !v.isEmpty && startsWithCI (("</guid>").data) (r2.drop v.length) then some v
      else none
    else none
  | [] => none

/-- Leftmost scan for a guid tag marked as permalink. -/
def findGuidPermalink : List Char → Option (List Char)
  | [] => none
  | l@(_ :: rest) =>
    if startsWithCI (("<guid").data) l && boundaryOkAt (l.drop 5) then
      match guidHere (l.drop 5) with
      | some v => some v
      | none => findGuidPermalink rest
    else findGuidPermalink rest

/-- Model of the link resolution of one item block, in source priority
order: attribute-style href link, then tag-content link (whose raw capture
must be nonempty), then permalink guid; each stage is decoded and trimmed,
and a later stage is consulted only while the link is still empty. -/
def linkOfItem (block : List Char) : String :=
  let l1 : String :=
    match findLinkHref block with
    | some v => if !v.isEmpty then decodeEntities (String.mk (trimChars v)) else ("")
    | none => ("")
  if l1 ≠ ("") then l1
  else
    let l2 : String :=
      match findLinkText block with
      | some v => if !v.isEmpty then decodeEntities (String.mk (trimChars v)) else ("")
      | none => ("")
    if l2 ≠ ("") then l2
    else
      match findGuidPermalink block with
      | some v => decodeEntities (String.mk (trimChars v))
      | none => ("")

/-- Model of the title extraction of one item block: capture the title tag
content with optional CDATA, trim, decode entities, remove nested tags,
trim again. -/
def titleOf (block : List Char) : String :=
  let t0 : List Char :=
    match findTagCapture [(("title").data)] [(("</title>").data)] false block with
    | some v => trimChars v
    | none => []
  jsTrim (String.mk (stripTags [] (decodeEntities (String.mk t0)).data))

/-- Model of the date extraction of one item block: the first of the four
date tags, captured with optional CDATA and trimmed; the actual Date
parsing of the result is a platform operation outside this model, which
keeps the raw string. -/
def dateStrOf (block : List Char) : String :=
  let names := [(("pubdate").data), (("published").data), (("dc:date").data), (("updated").data)]
  let closes := [(("</pubdate>").data), (("</published>").data), (("</dc:date>").data),
                 (("</updated>").data)]
  match findTagCapture names closes false block with
  | some v => String.mk (trimChars v)
  | none => ("")

/-- Model of the description extraction of one item block: the first of
the four description tags, trimmed, decoded, tags replaced by spaces,
whitespace collapsed, trimmed, and cut to 500 characters. -/
def descOf (block : List Char) : String :=
  let names := [(("description").data), (("summary").data), (("content:encoded").data),
                (("content").data)]
  let closes := [(("</description>").data), (("</summary>").data), (("</content:encoded>").data),
                 (("</content>").data)]
  let d0 : List Char :=
    match findTagCapture names closes false block with
    | some v => trimChars v
    | none => []
  jsSlice0 (jsTrim (String.mk (collapseWs
    (stripTags [Char.ofNat 32] (decodeEntities (String.mk d0)).data)))) 500

/-- One parsed feed entry: the raw fields extracted from an item block. -/
structure RawItem where
  title : String
  link : String
  dateStr : String
  description : String
deriving Repr, DecidableEq

/-- Find the first closing item or entry tag; returns the block body seen
so far and the remainder after the closing tag.  The non-greedy item body
extends to the first closing tag of either name. -/
def findCloseItem : List Char → Option (List Char × List Char)
  | [] => none
  | l@(c :: rest) =>
    if startsWithCI (("</item>").data) l then some ([], l.drop 7)
    else if startsWithCI (("</entry>").data) l then some ([], l.drop 8)
    else
      match findCloseItem rest with
      | some (b, r) => some (c :: b, r)
      | none => none

/-- Fuel-driven extraction of item and entry blocks: at each opening item
or entry tag the body up to the first closing tag is collected and the
scan continues after it; without a closing tag no further match exists. -/
def extractItemBlocksAux : Nat → List Char → List (List Char)
  | _, [] => []
  | 0, _ => []
  | Nat.succ f, l@(_ :: rest) =>
    if startsWithCI (("<item>").data) l then
      match findCloseItem (l.drop 6) with
      | some (body, rest2) => body :: extractItemBlocksAux f rest2
      | none => []
    else if startsWithCI (("<entry>").data) l then
      match findCloseItem (l.drop 7) with
      | some (body, rest2) => body :: extractItemBlocksAux f rest2
      | none => []
    else extractItemBlocksAux f rest

/-- Item blocks of a feed document. -/
def extractItemBlocks (l : List Char) : List (List Char) :=
  extractItemBlocksAux l.length l

/-- Assembly of one raw item from a block; the item is kept only when both
the title and the link are nonempty. -/
def parseItemBlock (block : List Char) : Option RawItem :=
  let title := titleOf block
  let link := linkOfItem block
  let dateStr := dateStrOf block
  let description := descOf block
  if title ≠ ("") && link ≠ ("") then
    some { title := title, link := link, dateStr := dateStr, description := description }
  else none

/-- Model of the parsing stage of parseRSS on a fetched document: the
loose validation requires one of the three markers, otherwise the result
is the empty list; then every item block is extracted and assembled.  The
network fetch around this function is outside the model; fetch failures
yield the empty list at the call site in the same way. -/
def parseRSSText (xml : String) : List RawItem :=
  if !containsList (("<rss").data) xml.data &&
     !containsList (("<feed").data) xml.data &&
     !containsList (("<?xml").data) xml.data then []
  else (extractItemBlocks xml.data).filterMap parseItemBlock

/-- Model of aiAvailable as a function of the configuration, the clock and
the recorded failure time: the key must be configured, AI must not be
disabled, and the cooldown window since the last recorded failure must
have elapsed strictly. -/
def aiAvailable (hasKey disableAI : Bool) (cooldownMs nowMs lastErrorAt : Int) : Bool :=
  if !hasKey then false
  else if disableAI then false
  else decide (nowMs - lastErrorAt > cooldownMs)

/-- The quota and rate-limit error signature: the message contains 429,
insufficient_quota or rate limit, case-insensitively. -/
def isQuotaError (msg : String) : Bool :=
  containsCI (("429").data) msg.data ||
  containsCI (("insufficient_quota").data) msg.data ||
  containsCI (("rate limit").data) msg.data

/-- Model of flagAIError on the failure timestamp: the timestamp becomes
the current time exactly when the message matches the quota signature. -/
def flagAIError (msg : String) (nowMs lastErrorAt : Int) : Int :=
  if isQuotaError msg then nowMs else lastErrorAt

/-- Model of translateField given the outcomes of the two providers:
blank queries yield nothing; otherwise the first provider wins and the
second is consulted only when the first yields nothing.  Provider results
stand for the trimmed nonempty texts the providers return on success. -/
def translateField (libre gtx : Option String) (q : String) : Option String :=
  if q = ("") || jsTrim q = ("") then none
  else
    match libre with
    | some t => some t
    | none => gtx

/-- Parsed JSON fields of a successful AI completion; an empty string in a
field models an absent or empty JSON member, which the source treats as
missing through its truthiness fallbacks. -/
structure AiJson where
  title : String
  excerpt : String
  content : String
deriving Repr, DecidableEq

/-- Outcomes of the per-item effectful calls, passed as oracle data: the
fetched article text, the circuit-breaker verdict at this item, the AI
call outcome (none models a thrown completion or parse failure), the six
fallback provider outcomes for the three fields, and whether an unexpected
runtime error escapes the per-item work (caught by the per-item handler). -/
structure ItemEffects where
  articleText : String
  aiAvail : Bool
  aiOutcome : Option AiJson
  libreTitle : Option String
  gtxTitle : Option String
  libreExcerpt : Option String
  gtxExcerpt : Option String
  libreContent : Option String
  gtxContent : Option String
  throws : Bool

/-- One feed item as delivered by the feed stage to the generator: the
published time stands for the parsed Date value in milliseconds. -/
structure FeedItem where
  title : String
  link : String
  pubTime : Int
  description : String
deriving Repr, DecidableEq

/-- A candidate: a feed item annotated with the hostname of its link. -/
structure Cand where
  title : String
  link : String
  pubTime : Int
  hostname : String
  description : String
deriving Repr, DecidableEq

/-- The normalized news record produced by the generator. -/
structure News where
  Title : String
  Slug : String
  Excerpt : String
  Category : String
  Cover : String
  Sources : List String
  Content : String
  isTranslated : Bool
  coverNote : String
deriving Repr, DecidableEq

/-- Assembly of the normalized news record from the final fields, as done
at the end of the per-item processing. -/
def mkNews (category finalTitle finalExcerpt finalContent link : String) (tr : Bool) : News :=
  let query := buildUnsplashQuery category finalTitle
  { Title := finalTitle
    Slug := slugify finalTitle
    Excerpt := finalExcerpt
    Category := category
    Cover := buildUnsplashUrl query
    Sources := [link]
    Content := finalContent
    isTranslated := tr
    coverNote := ("Unsplash license image (query: ") ++ query ++ (")") }

/-- Model of the per-item processing of the generator loop, from the
article fetch through the translation branches to the normalized record.
The effectful calls are represented by the oracle outcomes; the global
circuit-breaker write of flagAIError is modelled separately. -/
def processItem (category : String) (item : Cand) (eff : ItemEffects) : News :=
  let desc220 := jsSlice0 item.description 220
  let baseText := orStr eff.articleText item.description
  if eff.aiAvail then
    match eff.aiOutcome with
    | some r =>
      let finalTitle := orStr r.title item.title
      let finalExcerpt := orStr r.excerpt desc220
      let finalContent := buildStructuredArticle (orStr r.title item.title)
        (orStr r.excerpt desc220)
        (formatContentForReadability (orStr r.content (toParagraphs baseText)))
        [item.link]
      mkNews category finalTitle finalExcerpt finalContent item.link true
    | none =>
      let tTitle := translateField eff.libreTitle eff.gtxTitle item.title
      let tExcerpt := translateField eff.libreExcerpt eff.gtxExcerpt (jsSlice0 baseText 220)
      let tContent := translateField eff.libreContent eff.gtxContent baseText
      if tTitle.isSome || tExcerpt.isSome || tContent.isSome then
        let finalTitle := tTitle.getD item.title
        let rawContent := tContent.getD baseText
        let finalContent := buildStructuredArticle (tTitle.getD item.title)
          (tExcerpt.getD (jsSlice0 (orStr rawContent ("")) 220))
          (formatContentForReadability rawContent)
          [item.link]
        let finalExcerpt := tExcerpt.getD (jsSlice0 (orStr rawContent ("")) 220)
        mkNews category finalTitle finalExcerpt finalContent item.link true
      else
        mkNews category item.title desc220
          (buildStructuredArticle item.title desc220
            (formatContentForReadability baseText) [item.link])
          item.link false
  else
    let tTitle := translateField eff.libreTitle eff.gtxTitle item.title
    let tExcerpt := translateField eff.libreExcerpt eff.gtxExcerpt (jsSlice0 baseText 220)
    let tContent := translateField eff.libreContent eff.gtxContent baseText
    if tTitle.isSome || tExcerpt.isSome || tContent.isSome then
      let finalTitle := tTitle.getD item.title
      let rawContent := tContent.getD baseText
      let finalContent := buildStructuredArticle (tTitle.getD item.title)
        (tExcerpt.getD (jsSlice0 (orStr rawContent ("")) 220))
        (formatContentForReadability rawContent)
        [item.link]
      let finalExcerpt := tExcerpt.getD (jsSlice0 finalContent 220)
      mkNews category finalTitle finalExcerpt finalContent item.link true
    else
      let raw := orStr baseText ("")
      let finalExcerpt := jsSlice0 raw 220
      mkNews category item.title finalExcerpt
        (buildStructuredArticle item.title finalExcerpt
          (formatContentForReadability raw) [item.link])
        item.link false

/-- Model of one fallback record built from feed metadata when no item was
processed successfully. -/
def fallbackNews (category : String) (item : Cand) : News :=
  let query := buildUnsplashQuery category item.title
  { Title := item.title
    Slug := slugify item.title
    Excerpt := jsSlice0 item.description 220
    Category := category
    Cover := buildUnsplashUrl query
    Sources := [item.link]
    Content := item.description
    isTranslated := false
    coverNote := ("Unsplash license image (query: ") ++ query ++ (")") }

/-- Insertion of a candidate into a list sorted by descending published
time: the candidate goes before the first strictly older entry, which
keeps equal keys in encounter order.  Together with the fold below this
models the stable runtime sort with the descending-time comparator. -/
def insertByRecency (c : Cand) : List Cand → List Cand
  | [] => [c]
  | d :: rest =>
    if d.pubTime < c.pubTime then c :: d :: rest else d :: insertByRecency c rest

/-- Stable sort by descending published time. -/
def sortByRecency : List Cand → List Cand
  | [] => []
  | c :: rest => insertByRecency c (sortByRecency rest)

/-- Stop test of the selection loop: never with an absent bound (the
not-a-number arithmetic of an unparsable count makes every comparison
false), otherwise when the selected length has reached the bound. -/
def boundReached (b : Option Nat) (n : Nat) : Bool :=
  match b with
  | none => false
  | some m => decide (n ≥ m)

/-- The greedy diversity walk of the selector: admit a candidate only when
its hostname has contributed fewer than two items so far, and stop as soon
as the selected length reaches the bound, checked after every candidate.
The count map is threaded as a function. -/
def selectAux (bound : Option Nat) : List Cand → (String → Nat) → List Cand → List Cand
  | [], _, sel => sel
  | c :: rest, cnt, sel =>
    if cnt c.hostname < 2 then
      if boundReached bound (sel ++ [c]).length then sel ++ [c]
      else selectAux bound rest (fun h => if h = c.hostname then cnt h + 1 else cnt h) (sel ++ [c])
    else
      if boundReached bound sel.length then sel
      else selectAux bound rest cnt sel

/-- The candidate selection step on an already sorted list. -/
def selectCandidates (bound : Option Nat) (cands : List Cand) : List Cand :=
  selectAux bound cands (fun _ => 0) []

/-- Decimal digit run value. -/
def digitsToNat (l : List Char) : Nat :=
  l.foldl (fun a c => a * 10 + (c.toNat - 48)) 0

/-- Hexadecimal digit test. -/
def isHexDigit (c : Char) : Bool :=
  isDigitC c || (decide (97 ≤ (lowerChar c).toNat) && decide ((lowerChar c).toNat ≤ 102))

/-- Hexadecimal digit run value. -/
def hexToNat (l : List Char) : Nat :=
  l.foldl (fun a c =>
    a * 16 + (if isDigitC c then c.toNat - 48 else (lowerChar c).toNat - 87)) 0

/-- Leading-integer parse after sign handling: a 0x or 0X prefix switches
to hexadecimal, otherwise the leading decimal digit run is taken; no
digits yields the not-a-number outcome, modelled by none. -/
def parseIntTail (sign : Int) (l : List Char) : Option Int :=
  match l with
  | c0 :: x :: rest =>
    if c0.toNat = 48 && (x.toNat = 120 || x.toNat = 88) then
      let ds := rest.takeWhile isHexDigit
      if ds.isEmpty then none else some (sign * (hexToNat ds : Int))
    else
      let ds := (c0 :: x :: rest).takeWhile isDigitC
      if ds.isEmpty then none else some (sign * (digitsToNat ds : Int))
  | _ =>
    let ds := l.takeWhile isDigitC
    if ds.isEmpty then none else some (sign * (digitsToNat ds : Int))

/-- Model of the runtime parseInt with radix ten or a hexadecimal prefix:
leading whitespace is skipped, an optional sign is read, then the leading
digit run; none models the not-a-number result. -/
def parseIntJS (s : String) : Option Int :=
  let l := s.data.dropWhile isWsChar
  match l with
  | c :: rest =>
    if c.toNat = 45 then parseIntTail (-1) rest
    else if c.toNat = 43 then parseIntTail 1 rest
    else parseIntTail 1 l
  | [] => none

/-- Parameter truthiness: present and nonempty. -/
def truthy (o : Option String) : Bool :=
  match o with
  | some s => s ≠ ("")
  | none => false

/-- The response of the generator endpoint: an article list or a
structured error with its status. -/
inductive GenResult where
  | ok (articles : List News)
  | err (status : Nat) (msg : String)
deriving Repr, DecidableEq

/-- Success test on a response. -/
def GenResult.isOk : GenResult → Bool
  | GenResult.ok _ => true
  | GenResult.err _ _ => false

/-- Number of articles of a response. -/
def numArticles : GenResult → Nat
  | GenResult.ok l => l.length
  | GenResult.err _ _ => 0

/-- The request and environment of one generator call, with the external
effects as oracle data: the key configuration, the three query parameters,
the feed list registered for the requested region and category (the
registry itself is configuration outside the source core), the per-feed
parse outcomes, the hostname parse of a link (none models an invalid URL,
whose candidate is discarded), and the per-index item effects. -/
structure GenArgs where
  hasApiKey : Bool
  categoryParam : Option String
  regionParam : Option String
  countParam : Option String
  feeds : Option (List String)
  fetchFeed : String → List FeedItem
  hostnameOf : String → Option String
  effects : Nat → ItemEffects

/-- The parsed count of a request: the count parameter with the literal
five as the truthiness default, run through the integer parse. -/
def countValOf (a : GenArgs) : Option Int :=
  parseIntJS (orStr ((a.countParam).getD ("")) ("5"))

/-- The not-a-number-aware comparison count < k: false for an unparsable
count. -/
def countLt (c : Option Int) (k : Int) : Bool :=
  match c with
  | none => false
  | some n => decide (n < k)

/-- The not-a-number-aware comparison count > k: false for an unparsable
count. -/
def countGt (c : Option Int) (k : Int) : Bool :=
  match c with
  | none => false
  | some n => decide (n > k)

/-- The selection stop bound: twice the count, absent for an unparsable
count whose arithmetic never satisfies the stop comparison. -/
def selBound (c : Option Int) : Option Nat :=
  match c with
  | none => none
  | some n => some (2 * n).toNat

/-- The loop bound min(count, selected length): zero for an unparsable
count, whose comparison is never true. -/
def jsMinCount (c : Option Int) (len : Nat) : Nat :=
  match c with
  | none => 0
  | some n => min n.toNat len

/-- The candidates of all fulfilled feed results, in feed order, each
annotated with its hostname; items whose link does not parse are
discarded. -/
def candidatesOf (a : GenArgs) (feeds : List String) : List Cand :=
  (feeds.map a.fetchFeed).flatMap (fun items => items.filterMap (fun it =>
    match a.hostnameOf it.link with
    | some h => some { title := it.title, link := it.link, pubTime := it.pubTime,
                       hostname := h, description := it.description }
    | none => none))

/-- The stage of the generator after validation: sort, select with the
diversity cap, process up to the loop bound skipping items whose work
throws, and fall back to feed metadata when nothing was processed. -/
def runPipeline (a : GenArgs) (category : String) (countVal : Option Int)
    (candidates : List Cand) : GenResult :=
  let sorted := sortByRecency candidates
  let selected := selectCandidates (selBound countVal) sorted
  let loopN := jsMinCount countVal selected.length
  let results := (selected.take loopN).enum.filterMap (fun p =>
    if (a.effects p.1).throws then none else some (processItem category p.2 (a.effects p.1)))
  if results.length = 0 then
    let fallback := (selected.take (jsMinCount countVal selected.length)).map
      (fallbackNews category)
    if fallback.length > 0 then GenResult.ok fallback
    else GenResult.err 500 ("Failed to process any articles. Please try again.")
  else GenResult.ok results

/-- Model of the generator endpoint: the validation chain in source order,
then the pipeline. -/
def generatorGET (a : GenArgs) : GenResult :=
  if !a.hasApiKey then
    GenResult.err 500
      ("OpenAI API key is not configured. Please add OPENAI_API_KEY to your environment variables.")
  else if !truthy a.categoryParam || !truthy a.regionParam then
    GenResult.err 400 ("Missing category or region")
  else
    let countVal := countValOf a
    if countLt countVal 3 || countGt countVal 10 then
      GenResult.err 400 ("Count must be between 3 and 10")
    else
      match a.feeds with
      | none => GenResult.err 404 ("No feeds found for this category/region")
      | some feeds =>
        if feeds.length = 0 then GenResult.err 404 ("No feeds found for this category/region")
        else
          let candidates := candidatesOf a feeds
          if candidates.length = 0 then
            GenResult.err 503
              ("Unable to fetch articles from RSS feeds. This may be due to feed availability or network issues. Please try again later or contact support.")
          else runPipeline a ((a.categoryParam).getD ("")) countVal candidates

/-- Characters that can appear in a slug output: lowercase ASCII letters,
digits, Thai characters and the hyphen. -/
def isOutChar (c : Char) : Bool :=
  isLowerAZ c || isDigitC c || isThaiChar c || decide (c.toNat = 45)

/-- Ordering by descending published time, as pairwise relation. -/
def recencyGE (a b : Cand) : Prop := b.pubTime ≤ a.pubTime

/-- Number of selected items from one hostname. -/
def hostCount (h : String) (sel : List Cand) : Nat :=
  (sel.filter (fun c => decide (c.hostname = h))).length

/-- An item block holding both an attribute-style link and a tag-content
link, the attribute form first. -/
def itemBoth (u w : List Char) : List Char :=
  (("<link href=\"").data) ++ u ++ (("\"/>").data) ++
  (("<link>").data) ++ w ++ (("</link>").data)

/-- Sample feed items used to exercise the endpoint model on concrete
requests. -/
def sampleFeedItems : List FeedItem :=
  [⟨("Aa bb. Cc dd. Ee ff."), ("http://a.com/1"), 30, ("Aa bb. Cc dd. Ee ff.")⟩,
   ⟨("Gg hh. Ii jj. Kk ll."), ("http://a.com/2"), 20, ("Gg hh. Ii jj. Kk ll.")⟩,
   ⟨("Mm nn. Oo pp. Qq rr."), ("http://b.com/3"), 10, ("Mm nn. Oo pp. Qq rr.")⟩]

/-- Item effects describing a request on which the AI is unavailable and
both fallback providers yield nothing, so every item takes the reflow
branch. -/
def sampleEffects : ItemEffects :=
  ⟨(""), false, none, none, none, none, none, none, none, false⟩

/-- A concrete request environment over the sample feed, parameterised by
the raw count parameter. -/
def sampleArgs (countP : String) : GenArgs :=
  { hasApiKey := true
    categoryParam := some ("Tech")
    regionParam := some ("intl")
    countParam := some countP
    feeds := some [("http://feed1")]
    fetchFeed := fun _ => sampleFeedItems
    hostnameOf := fun s => if s = ("http://b.com/3") then some ("b.com") else some ("a.com")
    effects := fun _ => sampleEffects }

theorem orStr_of_ne {a : String} (b : String) (h : a ≠ ("")) : orStr a b = a := by
  simp [orStr, h]

/-- C1: the introduction, key-point and detail sections partition the
sentence sequence exactly; the conclusion section additionally repeats
sentences already present (the last two, or the empty introduction when
there are none), so it never introduces a new sentence. -/
theorem c1_partition (body : String) :
    introSents body ++ keyPointSents body ++ detailSents body = sentencesOf body
    ∧ ∀ s ∈ conclSents body, s ∈ sentencesOf body := by
  constructor
  · unfold introSents keyPointSents detailSents
    rw [List.append_assoc, List.take_append_drop, List.take_append_drop]
  · intro s hs
    exact List.drop_subset _ _ hs

/-- C1 counterexample: on a body of five sentences (not below five, so the
stated exception does not apply) the sentence of rank four appears twice
across the four sections, in the key points and again in the conclusion. -/
theorem c1_counterexample :
    (sentencesOf ("Apple one. Banana two. Cherry three. Durian four. Elder five.")).length = 5
    ∧ ("Durian four.") ∈
        sentencesOf ("Apple one. Banana two. Cherry three. Durian four. Elder five.")
    ∧ (introSents ("Apple one. Banana two. Cherry three. Durian four. Elder five.")
        ++ keyPointSents ("Apple one. Banana two. Cherry three. Durian four. Elder five.")
        ++ detailSents ("Apple one. Banana two. Cherry three. Durian four. Elder five.")
        ++ conclSents ("Apple one. Banana two. Cherry three. Durian four. Elder five.")).count
          ("Durian four.") = 2 := by
  refine ⟨by decide, by decide, by decide⟩

/-- C3: after a quota-classified failure recorded at time T the breaker
timestamp equals T, an attempt one second before the cooldown has elapsed
is skipped, an attempt one second after it is made again (with the key
configured and AI not disabled), and a message outside the quota signature
never updates the timestamp. -/
theorem c3_circuit_breaker (cooldownMs nowT lastPrev : Int) (msg : String)
    (hq : isQuotaError msg = true) :
    flagAIError msg nowT lastPrev = nowT
    ∧ aiAvailable true false cooldownMs (nowT + cooldownMs - 1000)
        (flagAIError msg nowT lastPrev) = false
    ∧ aiAvailable true false cooldownMs (nowT + cooldownMs + 1000)
        (flagAIError msg nowT lastPrev) = true
    ∧ ∀ m nw lp, isQuotaError m = false → flagAIError m nw lp = lp := by
  have hf : flagAIError msg nowT lastPrev = nowT := by simp [flagAIError, hq]
  refine ⟨hf, ?_, ?_, ?_⟩
  · rw [hf]
    simp only [aiAvailable, Bool.not_true, Bool.false_eq_true, if_false, if_true]
    simp only [decide_eq_false_iff_not, not_lt]
    omega
  · rw [hf]
    simp only [aiAvailable, Bool.not_true, Bool.false_eq_true, if_false, if_true]
    simp only [decide_eq_true_eq]
    omega
  · intro m nw lp hm
    simp [flagAIError, hm]

/-- C3 witness: a concrete 429 failure at one million milliseconds with a
five-minute cooldown. -/
theorem c3_circuit_breaker_witness :
    isQuotaError ("Request failed with status 429") = true
    ∧ flagAIError ("Request failed with status 429") 1000000 0 = 1000000
    ∧ aiAvailable true false 300000 (1000000 + 300000 - 1000)
        (flagAIError ("Request failed with status 429") 1000000 0) = false
    ∧ aiAvailable true false 300000 (1000000 + 300000 + 1000)
        (flagAIError ("Request failed with status 429") 1000000 0) = true := by
  refine ⟨by decide, ?_, ?_, ?_⟩
  · exact (c3_circuit_breaker 300000 1000000 0 (_) (by decide)).1
  · exact (c3_circuit_breaker 300000 1000000 0 (_) (by decide)).2.1
  · exact (c3_circuit_breaker 300000 1000000 0 (_) (by decide)).2.2.1

/-- C5: any input lacking all three of the feed markers makes the parsing
stage return the empty list; the model is a total function, so no failure
escapes this boundary. -/
theorem c5_malformed_empty (xml : String)
    (h1 : containsList (("<rss").data) xml.data = false)
    (h2 : containsList (("<feed").data) xml.data = false)
    (h3 : containsList (("<?xml").data) xml.data = false) :
    parseRSSText xml = [] := by
  simp [parseRSSText, h1, h2, h3]

/-- C5 witness: a plain-text body without any feed marker. -/
theorem c5_malformed_empty_witness :
    containsList (("<rss").data) (("just some plain text, no markup").data) = false
    ∧ parseRSSText ("just some plain text, no markup") = [] :=
  ⟨by decide, c5_malformed_empty (_) (by decide) (by decide) (by decide)⟩

theorem intercalateGo_length_le (s : String) (l : List String) :
    ∀ acc : String, acc.length ≤ (String.intercalate.go acc s l).length := by
  induction l with
  | nil => intro acc; simp [String.intercalate.go]
  | cons a as ih =>
    intro acc
    have h2 := ih (acc ++ s ++ a)
    simp only [String.intercalate.go]
    have : acc.length ≤ (acc ++ s ++ a).length := by
      simp [String.length_append]
      omega
    omega

theorem joinSp_cons_ne (a : String) (rest : List String) (ha : a ≠ ("")) :
    joinSp (a :: rest) ≠ ("") := by
  have h1 : 0 < a.length := by
    cases a with
    | mk l =>
      cases l with
      | nil => exact absurd rfl ha
      | cons x t => simp [String.length]
  have h2 : a.length ≤ (joinSp (a :: rest)).length := by
    unfold joinSp String.intercalate
    exact intercalateGo_length_le (_) rest a
  intro hcon
  rw [hcon] at h2
  simp at h2
  omega

theorem sentencesOf_ne_empty (body : String) : ∀ s ∈ sentencesOf body, s ≠ ("") := by
  intro s hs
  unfold sentencesOf splitSentences at hs
  simp only [List.mem_map] at hs
  obtain ⟨l, hl, rfl⟩ := hs
  simp only [List.mem_filter] at hl
  intro hcon
  have hnil : l = [] := by
    have h2 := congrArg String.data hcon
    simpa using h2
  rw [hnil] at hl
  simp at hl

theorem summary13_ne_empty (body : String) (h : sentencesOf body ≠ []) :
    summary13 body ≠ ("") := by
  obtain ⟨a, rest, hrw⟩ : ∃ a rest, sentencesOf body = a :: rest := by
    cases hb : sentencesOf body with
    | nil => exact absurd hb h
    | cons a rest => exact ⟨a, rest, rfl⟩
  have ha : a ≠ ("") := sentencesOf_ne_empty body a (by rw [hrw]; exact List.mem_cons_self a rest)
  unfold summary13
  rw [hrw, List.take_succ_cons]
  exact joinSp_cons_ne a (_) ha

/-- C8 (amended): in the emitted document the excerpt slot holds the
trimmed join of the first thirteen sentences (which therefore overlaps the
introduction, the first three), and the introduction slot holds the
trimmed join of the first three sentences. -/
theorem c8_excerpt_section (title excerpt body : String) (sources : List String)
    (h : sentencesOf body ≠ []) :
    (buildStructuredLines title excerpt body sources)[6]? = some (jsTrim (summary13 body))
    ∧ (buildStructuredLines title excerpt body sources)[10]? = some (jsTrim (introStr body)) := by
  have hsum : summary13 body ≠ ("") := summary13_ne_empty body h
  unfold buildStructuredLines
  rw [orStr_of_ne excerpt hsum, orStr_of_ne (("")) hsum]
  exact ⟨rfl, rfl⟩

/-- C8 witness: a three-sentence body. -/
theorem c8_excerpt_section_witness :
    (buildStructuredLines ("T") ("E") ("Xa. Yb. Zc.") [])[6]? =
      some (jsTrim (summary13 ("Xa. Yb. Zc.")))
    ∧ (buildStructuredLines ("T") ("E") ("Xa. Yb. Zc.") [])[10]? =
      some (jsTrim (introStr ("Xa. Yb. Zc."))) :=
  c8_excerpt_section (_) (_) (_) (_) (by decide)

/-- C8 counterexample: on a sixteen-sentence body the excerpt slot holds
the join of the first thirteen sentences, which differs from the join of
sentences four through sixteen required by the claim (and overlaps the
introduction). -/
theorem c8_counterexample :
    (sentencesOf ("A1. B2. C3. D4. E5. F6. G7. H8. I9. J10. K11. L12. M13. N14. O15. P16.")).length = 16
    ∧ (buildStructuredLines ("T") ("E")
        ("A1. B2. C3. D4. E5. F6. G7. H8. I9. J10. K11. L12. M13. N14. O15. P16.") [])[6]? =
      some (jsTrim (joinSp ((sentencesOf
        ("A1. B2. C3. D4. E5. F6. G7. H8. I9. J10. K11. L12. M13. N14. O15. P16.")).take 13)))
    ∧ jsTrim (joinSp ((sentencesOf
        ("A1. B2. C3. D4. E5. F6. G7. H8. I9. J10. K11. L12. M13. N14. O15. P16.")).take 13))
      ≠ joinSp (((sentencesOf
        ("A1. B2. C3. D4. E5. F6. G7. H8. I9. J10. K11. L12. M13. N14. O15. P16.")).drop 3).take 13) := by
  refine ⟨by decide, by decide, by decide⟩

theorem translateField_none (q : String) : translateField none none q = none := by
  unfold translateField
  split <;> rfl

theorem mkNews_Title (category t e c l : String) (tr : Bool) :
    (mkNews category t e c l tr).Title = t := rfl

theorem mkNews_Excerpt (category t e c l : String) (tr : Bool) :
    (mkNews category t e c l tr).Excerpt = e := rfl

theorem mkNews_isTranslated (category t e c l : String) (tr : Bool) :
    (mkNews category t e c l tr).isTranslated = tr := rfl

theorem mkNews_Content (category t e c l : String) (tr : Bool) :
    (mkNews category t e c l tr).Content = c := rfl

/-- C4 (amended): when the AI attempt throws and every fallback provider
yields nothing for all three fields, the produced record keeps the original
title verbatim, the excerpt is the first 220 characters of the original
description, the translation flag is false, and the content is the
structured-article rendering of the original text (not the original text
verbatim). -/
theorem c4_passthrough (category : String) (item : Cand) (eff : ItemEffects)
    (hav : eff.aiAvail = true) (hout : eff.aiOutcome = none)
    (h1 : eff.libreTitle = none) (h2 : eff.gtxTitle = none)
    (h3 : eff.libreExcerpt = none) (h4 : eff.gtxExcerpt = none)
    (h5 : eff.libreContent = none) (h6 : eff.gtxContent = none) :
    (processItem category item eff).Title = item.title
    ∧ (processItem category item eff).Excerpt = jsSlice0 item.description 220
    ∧ (processItem category item eff).isTranslated = false
    ∧ (processItem category item eff).Content =
        buildStructuredArticle item.title (jsSlice0 item.description 220)
          (formatContentForReadability (orStr eff.articleText item.description))
          [item.link] := by
  have hp : processItem category item eff =
      mkNews category item.title (jsSlice0 item.description 220)
        (buildStructuredArticle item.title (jsSlice0 item.description 220)
          (formatContentForReadability (orStr eff.articleText item.description))
          [item.link])
        item.link false := by
    unfold processItem
    rw [hav, hout, h1, h2, h3, h4, h5, h6]
    simp [translateField_none]
  rw [hp]
  exact ⟨mkNews_Title (_) (_) (_) (_) (_) (_), mkNews_Excerpt (_) (_) (_) (_) (_) (_),
    mkNews_isTranslated (_) (_) (_) (_) (_) (_), mkNews_Content (_) (_) (_) (_) (_) (_)⟩

/-- C4 witness: a concrete item on the pass-through branch. -/
theorem c4_passthrough_witness :
    (processItem ("Tech")
      (⟨("Alpha beta"), ("http://x.com/1"), 0, ("x.com"),
        ("Gamma one. Delta two. Epsilon three.")⟩ : Cand)
      (⟨(""), true, none, none, none, none, none, none, none, false⟩ : ItemEffects)).Title
      = ("Alpha beta")
    ∧ (processItem ("Tech")
      (⟨("Alpha beta"), ("http://x.com/1"), 0, ("x.com"),
        ("Gamma one. Delta two. Epsilon three.")⟩ : Cand)
      (⟨(""), true, none, none, none, none, none, none, none, false⟩ : ItemEffects)).isTranslated
      = false :=
  ⟨(c4_passthrough (_) (_) (_) rfl rfl rfl rfl rfl rfl rfl rfl).1,
   (c4_passthrough (_) (_) (_) rfl rfl rfl rfl rfl rfl rfl rfl).2.2.1⟩

set_option maxHeartbeats 2000000 in
/-- C4 counterexample: on the pass-through branch the produced content is
the structured-article document, not the untranslated original content
used verbatim as the claim states (the title is kept and the flag is
false, but the content differs from the original text). -/
theorem c4_counterexample :
    (processItem ("Tech")
      (⟨("Alpha beta"), ("http://x.com/1"), 0, ("x.com"),
        ("Gamma one. Delta two. Epsilon three.")⟩ : Cand)
      (⟨(""), true, none, none, none, none, none, none, none, false⟩ : ItemEffects)).isTranslated
      = false
    ∧ (processItem ("Tech")
      (⟨("Alpha beta"), ("http://x.com/1"), 0, ("x.com"),
        ("Gamma one. Delta two. Epsilon three.")⟩ : Cand)
      (⟨(""), true, none, none, none, none, none, none, none, false⟩ : ItemEffects)).Content
      ≠ ("Gamma one. Delta two. Epsilon three.") := by
  refine ⟨by decide, by decide⟩

theorem mem_insertByRecency {x c : Cand} {l : List Cand} :
    x ∈ insertByRecency c l ↔ x = c ∨ x ∈ l := by
  induction l with
  | nil => simp [insertByRecency]
  | cons d rest ih =>
    unfold insertByRecency
    by_cases hlt : d.pubTime < c.pubTime
    · rw [if_pos hlt]
      simp [List.mem_cons]
    · rw [if_neg hlt]
      simp only [List.mem_cons, ih]
      tauto

theorem pairwise_insertByRecency (c : Cand) (l : List Cand)
    (h : l.Pairwise recencyGE) : (insertByRecency c l).Pairwise recencyGE := by
  induction l with
  | nil => simp [insertByRecency]
  | cons d rest ih =>
    rw [List.pairwise_cons] at h
    obtain ⟨hd, hrest⟩ := h
    unfold insertByRecency
    by_cases hlt : d.pubTime < c.pubTime
    · rw [if_pos hlt]
      refine List.Pairwise.cons ?_ (List.Pairwise.cons hd hrest)
      intro x hx
      rcases List.mem_cons.mp hx with rfl | hx2
      · exact le_of_lt hlt
      · exact le_trans (hd x hx2) (le_of_lt hlt)
    · rw [if_neg hlt]
      refine List.Pairwise.cons ?_ (ih hrest)
      intro x hx
      rcases mem_insertByRecency.mp hx with rfl | hx2
      · exact le_of_not_lt hlt
      · exact hd x hx2

theorem pairwise_sortByRecency (l : List Cand) : (sortByRecency l).Pairwise recencyGE := by
  induction l with
  | nil => simp [sortByRecency]
  | cons c rest ih => exact pairwise_insertByRecency c (_) ih

theorem selectAux_sublist (bound : Option Nat) (cands : List Cand) :
    ∀ cnt sel, (selectAux bound cands cnt sel).Sublist (sel ++ cands) := by
  induction cands with
  | nil =>
    intro cnt sel
    simp [selectAux]
  | cons c rest ih =>
    intro cnt sel
    unfold selectAux
    by_cases hadm : cnt c.hostname < 2
    · rw [if_pos hadm]
      by_cases hb : boundReached bound (sel ++ [c]).length = true
      · rw [if_pos hb]
        exact (List.append_sublist_append_left sel).mpr
          (List.Sublist.cons₂ c (List.nil_sublist rest))
      · rw [if_neg hb]
        have h2 := ih (fun h => if h = c.hostname then cnt h + 1 else cnt h) (sel ++ [c])
        have h3 : sel ++ [c] ++ rest = sel ++ c :: rest := by
          rw [List.append_assoc]
          rfl
        rw [h3] at h2
        exact h2
    · rw [if_neg hadm]
      by_cases hb : boundReached bound sel.length = true
      · rw [if_pos hb]
        exact List.sublist_append_left sel (c :: rest)
      · rw [if_neg hb]
        refine (ih cnt sel).trans ?_
        exact (List.append_sublist_append_left sel).mpr (List.sublist_cons_self c rest)

theorem hostCount_append_one (h : String) (sel : List Cand) (c : Cand) :
    hostCount h (sel ++ [c]) =
      hostCount h sel + (if c.hostname = h then 1 else 0) := by
  unfold hostCount
  rw [List.filter_append, List.length_append]
  by_cases hc : c.hostname = h
  · simp [hc]
  · simp [hc]

theorem selectAux_cap (bound : Option Nat) (cands : List Cand) :
    ∀ cnt sel, (∀ h, cnt h = hostCount h sel) → (∀ h, cnt h ≤ 2) →
    ∀ h, hostCount h (selectAux bound cands cnt sel) ≤ 2 := by
  induction cands with
  | nil =>
    intro cnt sel hsync hle h
    rw [selectAux, ← hsync h]
    exact hle h
  | cons c rest ih =>
    intro cnt sel hsync hle h
    unfold selectAux
    by_cases hadm : cnt c.hostname < 2
    · rw [if_pos hadm]
      have hsync2 : ∀ h2, (fun h3 => if h3 = c.hostname then cnt h3 + 1 else cnt h3) h2 =
          hostCount h2 (sel ++ [c]) := by
        intro h2
        rw [hostCount_append_one]
        by_cases heq : h2 = c.hostname
        · simp only [heq, if_pos rfl, hsync c.hostname]
          simp
        · have : ¬(c.hostname = h2) := fun hcon => heq hcon.symm
          simp only [if_neg heq, if_neg this, hsync h2]
          simp
      have hle2 : ∀ h2, (fun h3 => if h3 = c.hostname then cnt h3 + 1 else cnt h3) h2 ≤ 2 := by
        intro h2
        by_cases heq : h2 = c.hostname
        · subst heq
          show (if c.hostname = c.hostname then cnt c.hostname + 1 else cnt c.hostname) ≤ 2
          rw [if_pos rfl]
          omega
        · simp only [if_neg heq]
          exact hle h2
      by_cases hb : boundReached bound (sel ++ [c]).length = true
      · rw [if_pos hb, ← hsync2 h]
        exact hle2 h
      · rw [if_neg hb]
        exact ih (_) (_) hsync2 hle2 h
    · rw [if_neg hadm]
      by_cases hb : boundReached bound sel.length = true
      · rw [if_pos hb, ← hsync h]
        exact hle h
      · rw [if_neg hb]
        exact ih cnt sel hsync hle h

theorem selectAux_len (m : Nat) (cands : List Cand) :
    ∀ cnt sel, sel.length < m → (selectAux (some m) cands cnt sel).length ≤ m := by
  induction cands with
  | nil =>
    intro cnt sel hlt
    rw [selectAux]
    exact le_of_lt hlt
  | cons c rest ih =>
    intro cnt sel hlt
    unfold selectAux
    by_cases hadm : cnt c.hostname < 2
    · rw [if_pos hadm]
      by_cases hb : boundReached (some m) (sel ++ [c]).length = true
      · rw [if_pos hb]
        simp only [List.length_append, List.length_cons, List.length_nil]
        omega
      · rw [if_neg hb]
        apply ih
        simp only [boundReached, decide_eq_true_eq, not_le] at hb
        omega
    · rw [if_neg hadm]
      by_cases hb : boundReached (some m) sel.length = true
      · rw [if_pos hb]
        exact le_of_lt hlt
      · rw [if_neg hb]
        exact ih cnt sel hlt

/-- C2: for any candidate pool and any count of at least one, the
selection over the recency-sorted candidates admits at most two items per
hostname, its output is non-increasing in published time, its length never
exceeds twice the count, and it is a subsequence of the sorted pool. -/
theorem c2_selection (cands : List Cand) (n : Nat) (hn : 1 ≤ n) :
    (∀ h, hostCount h (selectCandidates (some (2 * n)) (sortByRecency cands)) ≤ 2)
    ∧ (selectCandidates (some (2 * n)) (sortByRecency cands)).Pairwise recencyGE
    ∧ (selectCandidates (some (2 * n)) (sortByRecency cands)).length ≤ 2 * n
    ∧ (selectCandidates (some (2 * n)) (sortByRecency cands)).Sublist (sortByRecency cands) := by
  have hsub : (selectCandidates (some (2 * n)) (sortByRecency cands)).Sublist
      (sortByRecency cands) := by
    have h2 := selectAux_sublist (some (2 * n)) (sortByRecency cands) (fun _ => 0) []
    simpa [selectCandidates] using h2
  refine ⟨?_, ?_, ?_, hsub⟩
  · intro h
    exact selectAux_cap (_) (_) (fun _ => 0) [] (fun h2 => by simp [hostCount])
      (fun h2 => Nat.zero_le 2) h
  · exact (pairwise_sortByRecency cands).sublist hsub
  · exact selectAux_len (_) (_) (fun _ => 0) [] (by simp only [List.length_nil]; omega)

/-- C2 witness: three candidates over two hostnames with count three. -/
theorem c2_selection_witness :
    hostCount ("a.com") (selectCandidates (some (2 * 3)) (sortByRecency
      [⟨("T1"), ("http://a.com/1"), 30, ("a.com"), ("D1")⟩,
       ⟨("T2"), ("http://a.com/2"), 20, ("a.com"), ("D2")⟩,
       ⟨("T3"), ("http://b.com/3"), 10, ("b.com"), ("D3")⟩])) ≤ 2
    ∧ (selectCandidates (some (2 * 3)) (sortByRecency
      [⟨("T1"), ("http://a.com/1"), 30, ("a.com"), ("D1")⟩,
       ⟨("T2"), ("http://a.com/2"), 20, ("a.com"), ("D2")⟩,
       ⟨("T3"), ("http://b.com/3"), 10, ("b.com"), ("D3")⟩])).Pairwise recencyGE
    ∧ (selectCandidates (some (2 * 3)) (sortByRecency
      [⟨("T1"), ("http://a.com/1"), 30, ("a.com"), ("D1")⟩,
       ⟨("T2"), ("http://a.com/2"), 20, ("a.com"), ("D2")⟩,
       ⟨("T3"), ("http://b.com/3"), 10, ("b.com"), ("D3")⟩])).length ≤ 2 * 3 :=
  ⟨(c2_selection (_) 3 (by omega)).1 (_),
   (c2_selection (_) 3 (by omega)).2.1,
   (c2_selection (_) 3 (by omega)).2.2.1⟩

theorem runPipeline_none (a : GenArgs) (cat : String) (cands : List Cand) :
    runPipeline a cat none cands =
      GenResult.err 500 ("Failed to process any articles. Please try again.") := by
  simp [runPipeline, jsMinCount]

/-- C9 (amended): whenever the count parameter fails to parse to an
integer in range (it parses to an out-of-range integer, or to no integer
at all, the not-a-number case that slips past the range check), the
endpoint returns a structured error with a status of at least 400 and
produces no article list; a parameter with an in-range leading integer
such as a decimal string is accepted instead. -/
theorem c9_invalid_count (a : GenArgs)
    (hbad : ∀ n, countValOf a = some n → n < 3 ∨ 10 < n) :
    ∃ st msg, generatorGET a = GenResult.err st msg ∧ 400 ≤ st := by
  cases hkey : a.hasApiKey with
  | false =>
    refine ⟨500, ("OpenAI API key is not configured. Please add OPENAI_API_KEY to your environment variables."), ?_, by omega⟩
    simp [generatorGET, hkey]
  | true =>
    by_cases hcat : (!truthy a.categoryParam || !truthy a.regionParam) = true
    · refine ⟨400, ("Missing category or region"), ?_, by omega⟩
      simp [generatorGET, hkey, hcat]
    · cases hcv : countValOf a with
      | some n =>
        have hrange := hbad n hcv
        have hcond : (countLt (some n) 3 || countGt (some n) 10) = true := by
          simp only [countLt, countGt, Bool.or_eq_true, decide_eq_true_eq]
          omega
        refine ⟨400, ("Count must be between 3 and 10"), ?_, by omega⟩
        simp [generatorGET, hkey, hcat, hcv, hcond]
      | none =>
        cases hf : a.feeds with
        | none =>
          refine ⟨404, ("No feeds found for this category/region"), ?_, by omega⟩
          simp [generatorGET, hkey, hcat, hcv, hf, countLt, countGt]
        | some feeds =>
          by_cases hfl : feeds.length = 0
          · refine ⟨404, ("No feeds found for this category/region"), ?_, by omega⟩
            simp [generatorGET, hkey, hcat, hcv, hf, hfl, countLt, countGt]
          · by_cases hcl : (candidatesOf a feeds).length = 0
            · refine ⟨503, ("Unable to fetch articles from RSS feeds. This may be due to feed availability or network issues. Please try again later or contact support."), ?_, by omega⟩
              simp [generatorGET, hkey, hcat, hcv, hf, hfl, hcl, countLt, countGt]
            · refine ⟨500, ("Failed to process any articles. Please try again."), ?_, by omega⟩
              have hrw : generatorGET a =
                  runPipeline a ((a.categoryParam).getD ("")) none (candidatesOf a feeds) := by
                simp [generatorGET, hkey, hcat, hcv, hf, hfl, hcl, countLt, countGt]
              rw [hrw, runPipeline_none]

/-- C9 witness: an out-of-range count of ninety-nine on the sample
request. -/
theorem c9_invalid_count_witness :
    ∃ st msg, generatorGET (sampleArgs ("99")) = GenResult.err st msg ∧ 400 ≤ st :=
  c9_invalid_count (_) (fun n h => by
    have h2 : countValOf (sampleArgs ("99")) = some 99 := by decide
    rw [h2] at h
    injection h with h3
    omega)

/-- C9 counterexample: the count parameter 3.9 does not denote an integer
in the range, yet the endpoint accepts it (the integer parse reads the
leading 3) and returns a successful response with three articles rather
than a structured error. -/
theorem c9_counterexample :
    (generatorGET (sampleArgs ("3.9"))).isOk = true
    ∧ numArticles (generatorGET (sampleArgs ("3.9"))) = 3 := by
  refine ⟨by decide, by decide⟩

theorem runPipeline_ok_bound (a : GenArgs) (cat : String) (n : Int) (cands : List Cand) :
    numArticles (runPipeline a cat (some n) cands) ≤ n.toNat := by
  simp only [runPipeline]
  split
  · split
    · simp only [numArticles, List.length_map, List.length_take, jsMinCount]
      omega
    · simp [numArticles]
  · simp only [numArticles]
    refine le_trans (List.length_filterMap_le (_) (_)) ?_
    rw [List.enum_length, List.length_take]
    simp only [jsMinCount]
    omega

/-- C10: for every request whose count parameter parses to an integer n,
every response of the endpoint, the feed-metadata fallback path included,
carries at most n articles. -/
theorem c10_count_bound (a : GenArgs) (n : Int)
    (hn : countValOf a = some n)
    (_hok : (generatorGET a).isOk = true) :
    numArticles (generatorGET a) ≤ n.toNat := by
  cases hkey : a.hasApiKey with
  | false => simp [generatorGET, hkey, numArticles]
  | true =>
    by_cases hcat : (!truthy a.categoryParam || !truthy a.regionParam) = true
    · simp [generatorGET, hkey, hcat, numArticles]
    · by_cases hcond : (countLt (some n) 3 || countGt (some n) 10) = true
      · simp [generatorGET, hkey, hcat, hn, hcond, numArticles]
      · cases hf : a.feeds with
        | none => simp [generatorGET, hkey, hcat, hn, hcond, hf, numArticles]
        | some feeds =>
          by_cases hfl : feeds.length = 0
          · simp [generatorGET, hkey, hcat, hn, hcond, hf, hfl, numArticles]
          · by_cases hcl : (candidatesOf a feeds).length = 0
            · simp [generatorGET, hkey, hcat, hn, hcond, hf, hfl, hcl, numArticles]
            · have hrw : generatorGET a =
                  runPipeline a ((a.categoryParam).getD ("")) (some n) (candidatesOf a feeds) := by
                simp [generatorGET, hkey, hcat, hn, hcond, hf, hfl, hcl]
              rw [hrw]
              exact runPipeline_ok_bound (_) (_) n (_)

/-- C10 witness: the sample request with count three returns a successful
response of at most three articles. -/
theorem c10_count_bound_witness :
    countValOf (sampleArgs ("3")) = some 3
    ∧ (generatorGET (sampleArgs ("3"))).isOk = true
    ∧ numArticles (generatorGET (sampleArgs ("3"))) ≤ (3 : Int).toNat :=
  ⟨by decide, by decide, c10_count_bound (_) 3 (by decide) (by decide)⟩

theorem takeWhile_append_all {p : Char → Bool} (u : List Char) (x : Char) (r : List Char)
    (hu : ∀ c ∈ u, p c = true) (hx : p x = false) :
    (u ++ x :: r).takeWhile p = u := by
  induction u with
  | nil => simp [List.takeWhile_cons, hx]
  | cons a t ih =>
    have ha : p a = true := hu a (List.mem_cons_self a t)
    have ht : ∀ c ∈ t, p c = true := fun c hc => hu c (List.mem_cons_of_mem a hc)
    simp [List.takeWhile_cons, ha, ih ht]

theorem parseQuotedVal_exact (u r : List Char) (hu : u ≠ [])
    (hq : ∀ c ∈ u, isSlugQuote c = false) :
    parseQuotedVal ('"' :: (u ++ '"' :: r)) = some (u, r) := by
  have hq34 : isSlugQuote ('"') = true := by decide
  have htake : (u ++ '"' :: r).takeWhile (fun d => !isSlugQuote d) = u :=
    takeWhile_append_all u (_) r (fun c hc => by rw [hq c hc]; rfl) (by decide)
  have hlen : (u ++ '"' :: r).drop u.length = '"' :: r := List.drop_left u (_)
  have hne : (!u.isEmpty) = true := by
    cases u with
    | nil => exact absurd rfl hu
    | cons a t => rfl
  unfold parseQuotedVal
  simp only [hq34, if_true, htake, hlen, hne, Bool.and_true, if_pos]

theorem hrefInTag_here (prev : Char) (u r : List Char)
    (hprev : isWordChar prev = false) (hu : u ≠ [])
    (hq : ∀ c ∈ u, isSlugQuote c = false) :
    hrefInTag prev ('h' :: 'r' :: 'e' :: 'f' :: '=' :: '"' :: (u ++ '"' :: '/' :: '>' :: r)) =
      some u := by
  unfold hrefInTag
  rw [if_neg (by decide : ¬((('h') : Char).toNat = 62))]
  have hc2 : (startsWithCI (("href=").data)
      ('h' :: 'r' :: 'e' :: 'f' :: '=' :: '"' :: (u ++ '"' :: '/' :: '>' :: r)) &&
      !isWordChar prev) = true := by
    rw [show startsWithCI (("href=").data)
      ('h' :: 'r' :: 'e' :: 'f' :: '=' :: '"' :: (u ++ '"' :: '/' :: '>' :: r)) = true from rfl]
    rw [hprev]
    rfl
  rw [if_pos hc2]
  have hd5 : ('h' :: 'r' :: 'e' :: 'f' :: '=' :: '"' :: (u ++ '"' :: '/' :: '>' :: r)).drop 5 =
      '"' :: (u ++ '"' :: '/' :: '>' :: r) := rfl
  rw [hd5, parseQuotedVal_exact u ('/' :: '>' :: r) hu hq]
  simp [show (('/' :: '>' :: r).contains (Char.ofNat 62)) = true from rfl]

theorem findLinkHref_itemBoth (u w : List Char) (hu : u ≠ [])
    (hq : ∀ c ∈ u, isSlugQuote c = false) :
    findLinkHref (itemBoth u w) = some u := by
  have hrw : itemBoth u w =
      '<' :: 'l' :: 'i' :: 'n' :: 'k' :: ' ' :: 'h' :: 'r' :: 'e' :: 'f' :: '=' :: '"' ::
        (u ++ '"' :: '/' :: '>' :: ((("<link>").data) ++ (w ++ (("</link>").data)))) := by
    unfold itemBoth
    simp only [List.append_assoc]
    rfl
  rw [hrw]
  unfold findLinkHref
  rw [if_pos (show (startsWithCI (("<link").data)
      ('<' :: 'l' :: 'i' :: 'n' :: 'k' :: ' ' :: 'h' :: 'r' :: 'e' :: 'f' :: '=' :: '"' ::
        (u ++ '"' :: '/' :: '>' :: ((("<link>").data) ++ (w ++ (("</link>").data))))) &&
      boundaryOkAt (('<' :: 'l' :: 'i' :: 'n' :: 'k' :: ' ' :: 'h' :: 'r' :: 'e' :: 'f' :: '=' :: '"' ::
        (u ++ '"' :: '/' :: '>' :: ((("<link>").data) ++ (w ++ (("</link>").data))))).drop 5)) = true
    from rfl)]
  have hstep : hrefInTag (Char.ofNat 107)
      (('<' :: 'l' :: 'i' :: 'n' :: 'k' :: ' ' :: 'h' :: 'r' :: 'e' :: 'f' :: '=' :: '"' ::
        (u ++ '"' :: '/' :: '>' :: ((("<link>").data) ++ (w ++ (("</link>").data))))).drop 5) =
      hrefInTag (' ')
        ('h' :: 'r' :: 'e' :: 'f' :: '=' :: '"' ::
          (u ++ '"' :: '/' :: '>' :: ((("<link>").data) ++ (w ++ (("</link>").data))))) := by
    rfl
  rw [hstep, hrefInTag_here (' ') u (_) (by decide) hu hq]

/-- C6: the link of an item block is resolved with the attribute-style
href form taking priority: whenever the href pattern matches (with a
nonempty capture whose decoded trim is nonempty), its value is the link;
in particular an item carrying both an attribute-style link and a
tag-content link resolves to the attribute value. -/
theorem c6_link_priority :
    (∀ s v, findLinkHref s = some v → v ≠ [] →
      decodeEntities (String.mk (trimChars v)) ≠ ("") →
      linkOfItem s = decodeEntities (String.mk (trimChars v)))
    ∧ ∀ u w, u ≠ [] → (∀ c ∈ u, isSlugQuote c = false) →
        decodeEntities (String.mk (trimChars u)) ≠ ("") →
        findLinkHref (itemBoth u w) = some u
        ∧ linkOfItem (itemBoth u w) = decodeEntities (String.mk (trimChars u)) := by
  have hA : ∀ s v, findLinkHref s = some v → v ≠ [] →
      decodeEntities (String.mk (trimChars v)) ≠ ("") →
      linkOfItem s = decodeEntities (String.mk (trimChars v)) := by
    intro s v hhref hv hne
    have hne2 : (!v.isEmpty) = true := by
      cases v with
      | nil => exact absurd rfl hv
      | cons a t => rfl
    unfold linkOfItem
    rw [hhref]
    simp only [hne2, if_true]
    rw [if_pos hne]
  refine ⟨hA, ?_⟩
  intro u w hu hq hne
  have hfind : findLinkHref (itemBoth u w) = some u := findLinkHref_itemBoth u w hu hq
  exact ⟨hfind, hA (_) u hfind hu hne⟩

/-- C6 witness: a one-character href value next to a tag-content link. -/
theorem c6_link_priority_witness :
    findLinkHref (itemBoth ['a'] ['b']) = some ['a']
    ∧ linkOfItem (itemBoth ['a'] ['b']) = decodeEntities (String.mk (trimChars ['a'])) :=
  (c6_link_priority).2 ['a'] ['b'] (by decide) (by decide) (by decide)

theorem toNat_ofNat_lt (n : Nat) (h : n < 55296) : (Char.ofNat n).toNat = n := by
  unfold Char.ofNat
  rw [dif_pos (Or.inl h)]
  rfl

theorem lowerChar_not_upper (c : Char) : isUpperAZ (lowerChar c) = false := by
  unfold lowerChar
  cases h : isUpperAZ c with
  | false =>
    rw [if_neg (by simp [h])]
    exact h
  | true =>
    rw [if_pos (by simp [h])]
    have hr : 65 ≤ c.toNat ∧ c.toNat ≤ 90 := by
      simpa [isUpperAZ, Bool.and_eq_true, decide_eq_true_eq] using h
    have hb : c.toNat + 32 < 55296 := by omega
    have ht : (Char.ofNat (c.toNat + 32)).toNat = c.toNat + 32 := toNat_ofNat_lt (_) hb
    rw [Bool.eq_false_iff]
    intro hcon
    simp only [isUpperAZ, ht, Bool.and_eq_true, decide_eq_true_eq] at hcon
    omega

theorem isOut_props (c : Char) (h : isOutChar c = true) :
    lowerChar c = c ∧ isWsChar c = false ∧ isSlugQuote c = false ∧ slugKeep c = true
    ∧ isSpaceUnd c = false := by
  have h2 : (97 ≤ c.toNat ∧ c.toNat ≤ 122) ∨ (48 ≤ c.toNat ∧ c.toNat ≤ 57)
      ∨ (3584 ≤ c.toNat ∧ c.toNat ≤ 3711) ∨ c.toNat = 45 := by
    simp only [isOutChar, isLowerAZ, isDigitC, isThaiChar, Bool.or_eq_true, Bool.and_eq_true,
      decide_eq_true_eq] at h
    tauto
  refine ⟨?_, ?_, ?_, ?_, ?_⟩
  · have hup : ¬(isUpperAZ c = true) := by
      simp only [isUpperAZ, Bool.and_eq_true, decide_eq_true_eq, not_and, not_le]
      omega
    unfold lowerChar
    exact if_neg hup
  · rw [Bool.eq_false_iff]
    intro hcon
    simp only [isWsChar, Bool.or_eq_true, decide_eq_true_eq] at hcon
    omega
  · rw [Bool.eq_false_iff]
    intro hcon
    simp only [isSlugQuote, Bool.or_eq_true, decide_eq_true_eq] at hcon
    omega
  · simp only [slugKeep, isWordChar, isLowerAZ, isUpperAZ, isDigitC, isThaiChar, isWsChar,
      Bool.or_eq_true, Bool.and_eq_true, decide_eq_true_eq]
    omega
  · rw [Bool.eq_false_iff]
    intro hcon
    simp only [isSpaceUnd, isWsChar, Bool.or_eq_true, decide_eq_true_eq] at hcon
    omega

theorem out_of_kept (c : Char) (hk : slugKeep c = true) (hup : isUpperAZ c = false)
    (hsu : isSpaceUnd c = false) : isOutChar c = true := by
  simp only [slugKeep, isWordChar, isLowerAZ, isUpperAZ, isDigitC, isThaiChar, isWsChar,
    Bool.or_eq_true, Bool.and_eq_true, decide_eq_true_eq] at hk
  simp only [isUpperAZ, isSpaceUnd, isWsChar, Bool.or_eq_false_iff, Bool.and_eq_false_iff,
    decide_eq_false_iff_not, not_le] at hup hsu
  simp only [isOutChar, isLowerAZ, isDigitC, isThaiChar, Bool.or_eq_true, Bool.and_eq_true,
    decide_eq_true_eq]
  omega

theorem squashRunsAux_mem (p : Char → Bool) (r : Char) :
    ∀ (l : List Char) (b : Bool) (c : Char),
      c ∈ squashRunsAux p r b l → c = r ∨ (p c = false ∧ c ∈ l) := by
  intro l
  induction l with
  | nil => intro b c h; simp [squashRunsAux] at h
  | cons a rest ih =>
    intro b c h
    unfold squashRunsAux at h
    by_cases hp : p a = true
    · rw [if_pos hp] at h
      cases b with
      | true =>
        rw [if_pos rfl] at h
        rcases ih true c h with h1 | ⟨h2, h3⟩
        · exact Or.inl h1
        · exact Or.inr ⟨h2, List.mem_cons_of_mem a h3⟩
      | false =>
        rw [if_neg (by simp)] at h
        rcases List.mem_cons.mp h with rfl | h2
        · exact Or.inl rfl
        · rcases ih true c h2 with h3 | ⟨h4, h5⟩
          · exact Or.inl h3
          · exact Or.inr ⟨h4, List.mem_cons_of_mem a h5⟩
    · rw [if_neg hp] at h
      rcases List.mem_cons.mp h with rfl | h2
      · exact Or.inr ⟨Bool.eq_false_iff.mpr hp, List.mem_cons_self _ _⟩
      · rcases ih false c h2 with h3 | ⟨h4, h5⟩
        · exact Or.inl h3
        · exact Or.inr ⟨h4, List.mem_cons_of_mem a h5⟩

theorem squashRunsAux_eq_self (p : Char → Bool) (r : Char) :
    ∀ (l : List Char) (b : Bool), (∀ c ∈ l, p c = false) → squashRunsAux p r b l = l := by
  intro l
  induction l with
  | nil => intro b h; rfl
  | cons a rest ih =>
    intro b h
    have ha : p a = false := h a (List.mem_cons_self a rest)
    unfold squashRunsAux
    rw [if_neg (by simp [ha])]
    rw [ih false (fun c hc => h c (List.mem_cons_of_mem a hc))]

theorem squashAux_true_eq (p : Char → Bool) (r : Char) :
    ∀ l : List Char, squashRunsAux p r true l = squashRuns p r (l.dropWhile p) := by
  intro l
  induction l with
  | nil => rfl
  | cons a rest ih =>
    by_cases hp : p a = true
    · show squashRunsAux p r true (a :: rest) = squashRuns p r ((a :: rest).dropWhile p)
      unfold squashRunsAux
      rw [if_pos hp, if_pos rfl, List.dropWhile_cons, if_pos hp]
      exact ih
    · have hdw : (a :: rest).dropWhile p = a :: rest := by
        rw [List.dropWhile_cons, if_neg hp]
      rw [hdw]
      show squashRunsAux p r true (a :: rest) = squashRuns p r (a :: rest)
      unfold squashRuns
      unfold squashRunsAux
      simp only [if_neg hp]

theorem squashAux_chain (p : Char → Bool) (r : Char) :
    ∀ l : List Char,
      List.Chain' (fun a b => ¬(p a = true ∧ p b = true)) (squashRunsAux p r false l)
      ∧ List.Chain' (fun a b => ¬(p a = true ∧ p b = true)) (squashRunsAux p r true l)
      ∧ ∀ h t, squashRunsAux p r true l = h :: t → p h = false := by
  intro l
  induction l with
  | nil => refine ⟨by simp [squashRunsAux], by simp [squashRunsAux], ?_⟩
           intro h t hcon
           simp [squashRunsAux] at hcon
  | cons a rest ih =>
    obtain ⟨ih1, ih2, ih3⟩ := ih
    by_cases hp : p a = true
    · refine ⟨?_, ?_, ?_⟩
      · show List.Chain' (_) (squashRunsAux p r false (a :: rest))
        unfold squashRunsAux
        rw [if_pos hp, if_neg (by simp)]
        rw [List.chain'_cons']
        constructor
        · intro y hy
          cases haux : squashRunsAux p r true rest with
          | nil => rw [haux] at hy; simp at hy
          | cons z t =>
            rw [haux] at hy
            have hzy : z = y := by simpa using hy
            intro hcon
            have hpz : p z = false := ih3 z t haux
            rw [← hzy] at hcon
            rw [hpz] at hcon
            exact absurd hcon.2 (by simp)
        · exact ih2
      · unfold squashRunsAux
        rw [if_pos hp, if_pos rfl]
        exact ih2
      · intro h t heq
        unfold squashRunsAux at heq
        rw [if_pos hp, if_pos rfl] at heq
        exact ih3 h t heq
    · have hpf : p a = false := Bool.eq_false_iff.mpr hp
      have hchead : List.Chain' (fun a2 b => ¬(p a2 = true ∧ p b = true))
          (a :: squashRunsAux p r false rest) := by
        rw [List.chain'_cons']
        constructor
        · intro y hy
          intro hcon
          rw [hpf] at hcon
          exact absurd hcon.1 (by simp)
        · exact ih1
      refine ⟨?_, ?_, ?_⟩
      · unfold squashRunsAux
        rw [if_neg hp]
        exact hchead
      · unfold squashRunsAux
        rw [if_neg hp]
        exact hchead
      · intro h t heq
        unfold squashRunsAux at heq
        rw [if_neg hp] at heq
        injection heq with he1 he2
        rw [← he1]
        exact hpf

theorem squash_eq_self_of_chain (p : Char → Bool) (r : Char)
    (hpr : ∀ c, p c = true → c = r) :
    ∀ l : List Char, List.Chain' (fun a b => ¬(p a = true ∧ p b = true)) l →
      squashRuns p r l = l := by
  intro l
  induction l with
  | nil => intro hch; rfl
  | cons a rest ih =>
    intro hch
    rw [List.chain'_cons'] at hch
    obtain ⟨hhd, hch2⟩ := hch
    by_cases hp : p a = true
    · have ha : a = r := hpr a hp
      unfold squashRuns squashRunsAux
      rw [if_pos hp, if_neg (by simp), squashAux_true_eq]
      have hdw : rest.dropWhile p = rest := by
        cases rest with
        | nil => rfl
        | cons y t =>
          have hy : ¬(p a = true ∧ p y = true) := hhd y (by simp)
          have hpy : p y = false := by
            cases hpy2 : p y with
            | false => rfl
            | true => exact absurd ⟨hp, hpy2⟩ hy
          simp [List.dropWhile_cons, hpy]
      rw [hdw, ih hch2, ha]
    · unfold squashRuns squashRunsAux
      rw [if_neg hp]
      show a :: squashRuns p r rest = a :: rest
      rw [ih hch2]

theorem dropTrailing_mem (p : Char → Bool) :
    ∀ (l : List Char) (c : Char), c ∈ dropTrailing p l → c ∈ l := by
  intro l
  induction l with
  | nil => intro c h; simp [dropTrailing] at h
  | cons a rest ih =>
    intro c h
    unfold dropTrailing at h
    cases hd : dropTrailing p rest with
    | nil =>
      rw [hd] at h
      by_cases hp : p a = true
      · rw [if_pos hp] at h
        simp at h
      · rw [if_neg hp] at h
        rcases List.mem_cons.mp h with rfl | h2
        · exact List.mem_cons_self _ _
        · simp at h2
    | cons y t =>
      rw [hd] at h
      rcases List.mem_cons.mp h with rfl | h2
      · exact List.mem_cons_self _ _
      · exact List.mem_cons_of_mem a (ih c (hd ▸ h2))

theorem dropTrailing_length_le (p : Char → Bool) :
    ∀ l : List Char, (dropTrailing p l).length ≤ l.length := by
  intro l
  induction l with
  | nil => simp [dropTrailing]
  | cons a rest ih =>
    unfold dropTrailing
    cases hd : dropTrailing p rest with
    | nil =>
      by_cases hp : p a = true
      · rw [if_pos hp]
        simp
      · rw [if_neg hp]
        simp
    | cons y t =>
      rw [hd] at ih
      show (a :: y :: t).length ≤ (a :: rest).length
      simp only [List.length_cons] at ih ⊢
      omega

theorem dropTrailing_head (p : Char → Bool) :
    ∀ (l : List Char) (h : Char) (t : List Char),
      dropTrailing p l = h :: t → ∃ t2, l = h :: t2 := by
  intro l
  cases l with
  | nil => intro h t hcon; simp [dropTrailing] at hcon
  | cons a rest =>
    intro h t heq
    unfold dropTrailing at heq
    cases hd : dropTrailing p rest with
    | nil =>
      rw [hd] at heq
      by_cases hp : p a = true
      · rw [if_pos hp] at heq
        simp at heq
      · rw [if_neg hp] at heq
        injection heq with he1 he2
        exact ⟨rest, by rw [he1]⟩
    | cons y t2 =>
      rw [hd] at heq
      injection heq with he1 he2
      exact ⟨rest, by rw [he1]⟩

theorem dropTrailing_chain {R : Char → Char → Prop} (p : Char → Bool) :
    ∀ l : List Char, List.Chain' R l → List.Chain' R (dropTrailing p l) := by
  intro l
  induction l with
  | nil => intro h; simp [dropTrailing]
  | cons a rest ih =>
    intro hch
    rw [List.chain'_cons'] at hch
    obtain ⟨hhd, hch2⟩ := hch
    unfold dropTrailing
    cases hd : dropTrailing p rest with
    | nil =>
      by_cases hp : p a = true
      · rw [if_pos hp]
        simp
      · rw [if_neg hp]
        simp
    | cons y t =>
      rw [List.chain'_cons']
      constructor
      · intro z hz
        have hyz : y = z := by simpa using hz
        rw [← hyz]
        obtain ⟨t2, ht2⟩ := dropTrailing_head p rest y t hd
        exact hhd y (by rw [ht2]; simp)
      · rw [← hd]
        exact ih hch2

theorem dropTrailing_eq_self (p : Char → Bool) :
    ∀ l : List Char, (∀ c ∈ l, p c = false) → dropTrailing p l = l := by
  intro l
  induction l with
  | nil => intro h; rfl
  | cons a rest ih =>
    intro h
    have hr := ih (fun c hc => h c (List.mem_cons_of_mem a hc))
    unfold dropTrailing
    rw [hr]
    cases rest with
    | nil =>
      rw [if_neg (by simp [h a (List.mem_cons_self _ _)])]
    | cons y t => rfl

theorem dropWhile_eq_self_of_all (p : Char → Bool) (l : List Char)
    (h : ∀ c ∈ l, p c = false) : l.dropWhile p = l := by
  cases l with
  | nil => rfl
  | cons a rest => simp [List.dropWhile_cons, h a (List.mem_cons_self _ _)]

theorem dropWhile_headP (p : Char → Bool) :
    ∀ (l : List Char) (h : Char) (t : List Char), l.dropWhile p = h :: t → p h = false := by
  intro l
  induction l with
  | nil => intro h t hcon; simp at hcon
  | cons a rest ih =>
    intro h t heq
    rw [List.dropWhile_cons] at heq
    by_cases hp : p a = true
    · rw [if_pos hp] at heq
      exact ih h t heq
    · rw [if_neg hp] at heq
      injection heq with he1 he2
      rw [← he1]
      exact Bool.eq_false_iff.mpr hp

theorem take_head (l : List Char) (n : Nat) (h : Char) (t : List Char)
    (heq : l.take n = h :: t) : ∃ t2, l = h :: t2 := by
  cases l with
  | nil => simp at heq
  | cons a rest =>
    cases n with
    | zero => simp at heq
    | succ m =>
      rw [List.take_succ_cons] at heq
      injection heq with he1 he2
      exact ⟨rest, by rw [he1]⟩

theorem chain_take {R : Char → Char → Prop} :
    ∀ (l : List Char) (n : Nat), List.Chain' R l → List.Chain' R (l.take n) := by
  intro l
  induction l with
  | nil => intro n h; simp
  | cons a rest ih =>
    intro n hch
    cases n with
    | zero => simp
    | succ m =>
      rw [List.chain'_cons'] at hch
      obtain ⟨hhd, hch2⟩ := hch
      rw [List.take_succ_cons, List.chain'_cons']
      constructor
      · intro z hz
        cases htk : rest.take m with
        | nil => rw [htk] at hz; simp at hz
        | cons y t =>
          rw [htk] at hz
          have hyz : y = z := by simpa using hz
          rw [← hyz]
          obtain ⟨t2, ht2⟩ := take_head rest m y t htk
          exact hhd y (by rw [ht2]; simp)
      · exact ih m hch2

theorem map_eq_self_of_id {f : Char → Char} :
    ∀ l : List Char, (∀ c ∈ l, f c = c) → l.map f = l := by
  intro l
  induction l with
  | nil => intro h; rfl
  | cons a rest ih =>
    intro h
    rw [List.map_cons, h a (List.mem_cons_self _ _),
      ih (fun c hc => h c (List.mem_cons_of_mem a hc))]

theorem slugifyChars_props (l : List Char) :
    (∀ c ∈ slugifyChars l, isOutChar c = true)
    ∧ List.Chain' (fun a b => ¬(decide (a.toNat = 45) = true ∧ decide (b.toNat = 45) = true))
        (slugifyChars l)
    ∧ (∀ h t, slugifyChars l = h :: t → decide (h.toNat = 45) = false)
    ∧ (slugifyChars l).length ≤ 96 := by
  have hunfold : slugifyChars l =
      (stripEdgeHyphens (squashRuns (fun c => decide (c.toNat = 45)) (Char.ofNat 45)
        (squashRuns isSpaceUnd (Char.ofNat 45)
          (((trimChars (l.map lowerChar)).filter (fun c => !isSlugQuote c)).filter
            slugKeep)))).take 96 := rfl
  have f4 : ∀ c ∈ ((trimChars (l.map lowerChar)).filter (fun c => !isSlugQuote c)).filter
      slugKeep, slugKeep c = true ∧ isUpperAZ c = false := by
    intro c hc
    rw [List.mem_filter] at hc
    obtain ⟨hc2, hkeep⟩ := hc
    rw [List.mem_filter] at hc2
    obtain ⟨hc3, _⟩ := hc2
    have hc4 : c ∈ l.map lowerChar := by
      unfold trimChars at hc3
      have hc5 := dropTrailing_mem isWsChar (_) c hc3
      exact (List.dropWhile_sublist isWsChar).subset hc5
    rw [List.mem_map] at hc4
    obtain ⟨a, _, ha2⟩ := hc4
    exact ⟨hkeep, ha2 ▸ lowerChar_not_upper a⟩
  have f5 : ∀ c ∈ squashRuns isSpaceUnd (Char.ofNat 45)
      (((trimChars (l.map lowerChar)).filter (fun c => !isSlugQuote c)).filter slugKeep),
      isOutChar c = true := by
    intro c hc
    rcases squashRunsAux_mem isSpaceUnd (Char.ofNat 45) (_) false c hc with rfl | ⟨hpf, hmem⟩
    · decide
    · obtain ⟨hkeep, hup⟩ := f4 c hmem
      exact out_of_kept c hkeep hup hpf
  have f6 : ∀ c ∈ squashRuns (fun c => decide (c.toNat = 45)) (Char.ofNat 45)
      (squashRuns isSpaceUnd (Char.ofNat 45)
        (((trimChars (l.map lowerChar)).filter (fun c => !isSlugQuote c)).filter slugKeep)),
      isOutChar c = true := by
    intro c hc
    rcases squashRunsAux_mem (_) (Char.ofNat 45) (_) false c hc with rfl | ⟨_, hmem⟩
    · decide
    · exact f5 c hmem
  have f6chain := (squashAux_chain (fun c => decide (c.toNat = 45)) (Char.ofNat 45)
      (squashRuns isSpaceUnd (Char.ofNat 45)
        (((trimChars (l.map lowerChar)).filter (fun c => !isSlugQuote c)).filter slugKeep))).1
  refine ⟨?_, ?_, ?_, ?_⟩
  · intro c hc
    rw [hunfold] at hc
    have hc2 := (List.take_subset (_) (_)) hc
    unfold stripEdgeHyphens at hc2
    have hc3 := dropTrailing_mem (_) (_) c hc2
    have hc4 := (List.dropWhile_sublist (_)).subset hc3
    exact f6 c hc4
  · rw [hunfold]
    apply chain_take
    unfold stripEdgeHyphens
    apply dropTrailing_chain
    exact f6chain.suffix (List.dropWhile_suffix (_))
  · intro h t heq
    rw [hunfold] at heq
    obtain ⟨t2, ht2⟩ := take_head (_) 96 h t heq
    unfold stripEdgeHyphens at ht2
    obtain ⟨t3, ht3⟩ := dropTrailing_head (_) (_) h t2 ht2
    exact dropWhile_headP (_) (_) h t3 ht3
  · rw [hunfold]
    simp [List.length_take]

theorem slug_twice (l : List Char) :
    slugifyChars (slugifyChars l) =
      dropTrailing (fun c => decide (c.toNat = 45)) (slugifyChars l) := by
  obtain ⟨hmem, hchain, hhead, hlen⟩ := slugifyChars_props l
  have e1 : (slugifyChars l).map lowerChar = slugifyChars l :=
    map_eq_self_of_id (_) (fun c hc => (isOut_props c (hmem c hc)).1)
  have e2 : trimChars (slugifyChars l) = slugifyChars l := by
    unfold trimChars
    rw [dropWhile_eq_self_of_all isWsChar (_) (fun c hc => (isOut_props c (hmem c hc)).2.1)]
    exact dropTrailing_eq_self (_) (_) (fun c hc => (isOut_props c (hmem c hc)).2.1)
  have e3 : (slugifyChars l).filter (fun c => !isSlugQuote c) = slugifyChars l :=
    List.filter_eq_self.mpr (fun c hc => by rw [(isOut_props c (hmem c hc)).2.2.1]; rfl)
  have e4 : (slugifyChars l).filter slugKeep = slugifyChars l :=
    List.filter_eq_self.mpr (fun c hc => (isOut_props c (hmem c hc)).2.2.2.1)
  have e5 : squashRuns isSpaceUnd (Char.ofNat 45) (slugifyChars l) = slugifyChars l :=
    squashRunsAux_eq_self (_) (_) (_) false
      (fun c hc => (isOut_props c (hmem c hc)).2.2.2.2)
  have hpr : ∀ c : Char, decide (c.toNat = 45) = true → c = Char.ofNat 45 := by
    intro c hc
    have h45 : c.toNat = 45 := of_decide_eq_true hc
    rw [← Char.ofNat_toNat c, h45]
  have e6 : squashRuns (fun c => decide (c.toNat = 45)) (Char.ofNat 45) (slugifyChars l) =
      slugifyChars l := squash_eq_self_of_chain (_) (_) hpr (_) hchain
  have e7 : (slugifyChars l).dropWhile (fun c => decide (c.toNat = 45)) = slugifyChars l := by
    cases hm2 : slugifyChars l with
    | nil => rfl
    | cons h t =>
      have hph := hhead h t hm2
      simp [List.dropWhile_cons, hph]
  have e8 : (dropTrailing (fun c => decide (c.toNat = 45)) (slugifyChars l)).length ≤ 96 :=
    le_trans (dropTrailing_length_le (_) (_)) hlen
  calc slugifyChars (slugifyChars l)
      = (stripEdgeHyphens (squashRuns (fun c => decide (c.toNat = 45)) (Char.ofNat 45)
          (squashRuns isSpaceUnd (Char.ofNat 45)
            (((trimChars ((slugifyChars l).map lowerChar)).filter
              (fun c => !isSlugQuote c)).filter slugKeep)))).take 96 := rfl
    _ = (stripEdgeHyphens (slugifyChars l)).take 96 := by rw [e1, e2, e3, e4, e5, e6]
    _ = (dropTrailing (fun c => decide (c.toNat = 45)) (slugifyChars l)).take 96 := by
          unfold stripEdgeHyphens
          rw [e7]
    _ = dropTrailing (fun c => decide (c.toNat = 45)) (slugifyChars l) :=
          List.take_of_length_le e8

/-- C7 (amended): the sample title yields the expected lowercase,
hyphen-joined, punctuation-free slug of at most 96 characters; and a
second application of slugify equals the first up to removal of a trailing
hyphen, which the 96-character cut can leave behind — so slugify is
idempotent exactly on inputs whose slug does not end in a hyphen, but not
in general. -/
theorem c7_slug :
    (slugify ("Breaking: Thai PM Resigns!") = ("breaking-thai-pm-resigns")
      ∧ (∀ c ∈ (slugify ("Breaking: Thai PM Resigns!")).data, isLowerAZ c = true ∨ c.toNat = 45)
      ∧ (slugify ("Breaking: Thai PM Resigns!")).length ≤ 96)
    ∧ ∀ s : String, slugify (slugify s) = dropTrailingHyphens (slugify s) := by
  refine ⟨⟨by decide, by decide, by decide⟩, ?_⟩
  intro s
  unfold slugify dropTrailingHyphens
  rw [show (String.mk (slugifyChars s.data)).data = slugifyChars s.data from rfl]
  rw [slug_twice]

/-- C7 counterexample: on ninety-five letters followed by a space and one
more letter, the 96-character cut ends the slug in a hyphen, and a second
application of slugify strips it: slugify is not idempotent. -/
theorem c7_counterexample :
    slugify (slugify (String.mk (List.replicate 95 ('a') ++ [Char.ofNat 32, ('b')]))) ≠
      slugify (String.mk (List.replicate 95 ('a') ++ [Char.ofNat 32, ('b')])) := by
  decide
